import Mathlib

/-!
Shallow embedding of `Code/snf_multi_year_runner.py` (CMS SNF Quality
multi-year loader and trend summarizer) and verification of the frozen
claims about it.

Modelling conventions:
* A pandas cell is a `Val`: `na` models `NaN`/missing, `num` models a
  numeric value (rationals stand in for float64; all claim-relevant
  arithmetic is exact), `str` a Python string, `pair` the tuple values
  produced by `zip` for the `county_state_key` column.
* A `DataFrame` is a `Table`: an ordered list of column names plus rows,
  each row a list of cells positionally aligned with the column list
  (`Table.WF`).  Reading a column that is absent yields `na`, matching
  the places where the script only ever reads columns it has created.
* Column assignment `df[c] = s` is `setCell`/`setColName`: it overwrites
  the column in place when present and appends it otherwise, as pandas
  does.
* Row order: pandas `pivot_table` and `groupby(sort=True)` sort group
  keys ascending; this is modelled by the structural `insSort` over an
  total order on cell values that agrees with the Python ordering on the
  homogeneous (all-string or all-numeric) key columns the script
  produces.
* Rational arithmetic is routed through `Rat.divInt`-based wrappers
  (`qAdd`, `qDiv`, `qSum`) solely so that closed terms reduce inside the
  kernel; `qAdd_eq`, `qDiv_eq` and `qSum_eq` identify them with the
  standard field operations.
-/

namespace SNF

/-- A pandas cell value: missing (`NaN`), numeric, string, or a 2-tuple
(used only for the synthesized `county_state_key` column). -/
inductive Val where
  | na : Val
  | num : ℚ → Val
  | str : String → Val
  | pair : String → String → Val
deriving DecidableEq, Repr

/-- A pandas `DataFrame`: ordered column names and positional rows. -/
structure Table where
  cols : List String
  rows : List (List Val)
deriving DecidableEq, Repr

deriving instance DecidableEq for Except

/-- The empty `pd.DataFrame()` (no columns, no rows). -/
def Table.empty : Table := ⟨[], []⟩

/-- Well-formedness: every row has exactly one cell per column. -/
def Table.WF (t : Table) : Prop := ∀ r ∈ t.rows, r.length = t.cols.length

instance (t : Table) : Decidable t.WF :=
  List.decidableBAll _ t.rows

/-- Reading cell `c` of a row (`df[c]` for one row): positional lookup by
the first occurrence of the column name; absent columns read as `na`. -/
def colVal (cols : List String) (r : List Val) (c : String) : Val :=
  r.getD (cols.indexOf c) .na

/-- Column list after the assignment `df[c] = ...`: unchanged when `c`
exists, appended otherwise. -/
def setColName (cols : List String) (c : String) : List String :=
  if cols.contains c then cols else cols ++ [c]

/-- Row after the assignment `df[c] = ...`: the cell is overwritten in
place when column `c` exists and appended otherwise. -/
def setCell (cols : List String) (r : List Val) (c : String) (v : Val) : List Val :=
  if cols.contains c then r.set (cols.indexOf c) v else r ++ [v]

/-- Python `str(val)` as used on cells (`NaN` prints as `nan`). -/
def pyStr : Val → String
  | .na => "nan"
  | .num q => toString q
  | .str s => s
  | .pair a b => "(" ++ a ++ ", " ++ b ++ ")"

/-- Python `str.upper()`, written over the character list so that it
evaluates in the kernel. -/
def pyUpper (s : String) : String :=
  ⟨s.data.map Char.toUpper⟩

/-- Python `str.lower()`, written over the character list. -/
def pyLower (s : String) : String :=
  ⟨s.data.map Char.toLower⟩

/-- Python `str.strip()`: drop leading and trailing whitespace. -/
def pyTrim (s : String) : String :=
  ⟨((s.data.dropWhile Char.isWhitespace).reverse.dropWhile Char.isWhitespace).reverse⟩

/-- Python `str.endswith`. -/
def pyEndsWith (s suffix : String) : Bool :=
  suffix.data.isSuffixOf s.data

/-- Drop the last `n` characters (Python slice `s[:-n]`). -/
def pyDropRight (s : String) (n : Nat) : String :=
  ⟨s.data.take (s.data.length - n)⟩

/-- Strip one trailing occurrence of `suffix` (the body of the loop in
`normalize_county`). -/
def stripSuffixOnce (s suffix : String) : String :=
  if pyEndsWith s suffix then pyDropRight s suffix.data.length else s

/-- Embeds `normalize_county` (runner lines 103-108): uppercase, trim,
then strip a trailing `" COUNTY"` and afterwards a trailing `" PARISH"`. -/
def normalize_county (val : Val) : String :=
  stripSuffixOnce (stripSuffixOnce (pyTrim (pyUpper (pyStr val))) " COUNTY") " PARISH"

/-- Embeds the state normalization `astype(str).str.strip().str.upper()`
(runner lines 128 and 132). -/
def normState (val : Val) : String :=
  pyUpper (pyTrim (pyStr val))

/-- Accepted county header spellings (runner line 112, lower-cased). -/
def countyColNames : List String := ["county name", "county/parish", "county"]

/-- Accepted state header spellings (runner line 113, lower-cased). -/
def stateColNames : List String := ["provider state", "state"]

/-- County-like columns of a header list, in order (runner line 112). -/
def countyColsOf (cols : List String) : List String :=
  cols.filter (fun c => countyColNames.contains (pyLower c))

/-- State-like columns of a header list, in order (runner line 113). -/
def stateColsOf (cols : List String) : List String :=
  cols.filter (fun c => stateColNames.contains (pyLower c))

/-- The `fillna` chain (runner lines 118-124): first non-missing value
among the given columns, else `na`. -/
def coalesce (cols : List String) (r : List Val) : List String → Val
  | [] => .na
  | c :: rest =>
    match colVal cols r c with
    | .na => coalesce cols r rest
    | v => v

/-- Normalized `(county_std, state_std)` of a data row (runner lines
127-128, 135). -/
def rowKeyCS (cols ccols scols : List String) (r : List Val) : String × String :=
  (normalize_county (coalesce cols r ccols), normState (coalesce cols r scols))

/-- A data row after `filter_to_counties` has assigned `county_std`,
`state_std` and `county_state_key` (runner lines 127, 128, 135). -/
def augRow (cols ccols scols : List String) (r : List Val) : List Val :=
  let k := rowKeyCS cols ccols scols r
  let cols1 := setColName cols "county_std"
  let cols2 := setColName cols1 "state_std"
  let r1 := setCell cols r "county_std" (.str k.1)
  let r2 := setCell cols1 r1 "state_std" (.str k.2)
  setCell cols2 r2 "county_state_key" (.pair k.1 k.2)

/-- Column list of the table returned by `filter_to_counties` on the
filtering branch. -/
def augCols (cols : List String) : List String :=
  setColName (setColName (setColName cols "county_std") "state_std") "county_state_key"

/-- The normalized allow-list (runner lines 130-134): `normalize_county`
on `County`, strip/upper on `StateCode`, collected as a set of pairs. -/
def normAllowed (counties : List (Val × Val)) : List (String × String) :=
  counties.map (fun p => (normalize_county p.1, normState p.2))

/-- Embeds `filter_to_counties` (runner lines 111-136).  When no
county-like or no state-like column exists the table passes through
unchanged; otherwise each row is augmented with the normalization
columns and kept iff its normalized `(county, state)` pair is in the
normalized allow-list. -/
def filter_to_counties (t : Table) (counties : List (Val × Val)) : Table :=
  let ccols := countyColsOf t.cols
  let scols := stateColsOf t.cols
  if ccols.isEmpty || scols.isEmpty then t
  else
    let allowed := normAllowed counties
    { cols := augCols t.cols,
      rows := t.rows.filterMap (fun r =>
        if allowed.contains (rowKeyCS t.cols ccols scols r)
        then some (augRow t.cols ccols scols r) else none) }

/-- The fixed measure-code to label lookup `MEASURE_MAP` (runner lines
47-57), in source order. -/
def MEASURE_MAP : List (String × String) := [
  ("S_038_02_ADJ_RATE", "Pressure Ulcer Rate"),
  ("S_013_02_OBS_RATE", "Fall with Major Injury Rate"),
  ("S_004_01_PPR_PD_RSRR", "Preventable Readmission Rate"),
  ("S_006_01_MSPB_SCORE", "Medicare Spending Per Beneficiary (MSPB)"),
  ("S_005_02_DTC_RS_RATE", "Discharge to Community Rate"),
  ("S_039_01_HAI_RS_RATE", "Healthcare-Associated Infection Rate"),
  ("S_007_02_OBS_RATE", "Medication Review Rate"),
  ("S_024_05_OBS_RATE", "Self-Care at Discharge"),
  ("S_025_05_OBS_RATE", "Mobility at Discharge")]

/-- The enumerated measure codes (`MEASURE_MAP.keys()`). -/
def measureKeys : List String := MEASURE_MAP.map (fun e => e.1)

/-- Rename a pivot column from code to human label
(`pivot.rename(columns=MEASURE_MAP)`); unknown names pass through. -/
def measureLabel (code : String) : String :=
  (MEASURE_MAP.lookup code).getD code

/-- Substring test (Python `in` on strings), over character lists. -/
def strContainsSub (s pat : String) : Bool :=
  s.data.tails.any (fun t => pat.data.isPrefixOf t)

/-- Locates the measure-code column (runner line 141): exact name
`Measure Code`, else the first header containing both `measure` and
`code` case-insensitively. -/
def findMeasureCol (cols : List String) : Option String :=
  if cols.contains "Measure Code" then some "Measure Code"
  else cols.find? (fun c =>
    strContainsSub (pyLower c) "measure" && strContainsSub (pyLower c) "code")

/-- Locates the provider column (runner line 142): exact CCN header, else
the first header containing both `provider` and `number`. -/
def findProviderCol (cols : List String) : Option String :=
  if cols.contains "CMS Certification Number (CCN)" then
    some "CMS Certification Number (CCN)"
  else cols.find? (fun c =>
    strContainsSub (pyLower c) "provider" && strContainsSub (pyLower c) "number")

/-- Locates the score column (runner line 143): exact name `Score`, else
the first header equal to `score` case-insensitively. -/
def findScoreCol (cols : List String) : Option String :=
  if cols.contains "Score" then some "Score"
  else cols.find? (fun c => pyLower c == "score")

/-- Rational addition written through `Rat.divInt` so that closed terms
reduce inside the kernel; `qAdd_eq` identifies it with `+`. -/
def qAdd (a b : ℚ) : ℚ :=
  Rat.divInt (a.num * b.den + b.num * a.den) (a.den * b.den)

/-- Rational division written through `Rat.divInt`; `qDiv_eq` identifies
it with `/` (with the `x / 0 = 0` convention of `ℚ`). -/
def qDiv (a b : ℚ) : ℚ :=
  Rat.divInt (a.num * b.den) (a.den * b.num)

/-- Kernel-computable list sum over `ℚ`; `qSum_eq` identifies it with
`List.sum`. -/
def qSum : List ℚ → ℚ
  | [] => 0
  | x :: xs => qAdd x (qSum xs)

/-- Digit-string value; `none` on any non-digit character. -/
def digitsVal (l : List Char) : Option Nat :=
  l.foldl (fun acc c =>
    match acc with
    | none => none
    | some n => if c.isDigit then some (n * 10 + (c.toNat - 48)) else none)
    (some 0)

/-- Embeds `pd.to_numeric(..., errors="coerce")` on a string: optional
sign, decimal digits with an optional fractional part.  Exotic float
syntax (exponents, `inf`, underscores) does not occur in the data sets
and coerces to missing here. -/
def parseNumeric (s : String) : Option ℚ :=
  let l := (pyTrim s).data
  let sp : Int × List Char :=
    match l with
    | '-' :: rest => (-1, rest)
    | '+' :: rest => (1, rest)
    | _ => (1, l)
  match (sp.2.splitOn '.') with
  | [ip] =>
    if ip.isEmpty then none
    else (digitsVal ip).map (fun n => Rat.divInt (sp.1 * n) 1)
  | [ip, fp] =>
    if ip.isEmpty && fp.isEmpty then none
    else
      match digitsVal ip, digitsVal fp with
      | some i, some f =>
        some (Rat.divInt (sp.1 * ((i * 10 ^ fp.length + f : ℕ) : ℤ)) ((10 ^ fp.length : ℕ) : ℤ))
      | _, _ => none
  | _ => none

/-- Numeric coercion of a cell (`pd.to_numeric(..., errors="coerce")`):
numbers pass through, strings are parsed, everything else is missing. -/
def toNumeric : Val → Option ℚ
  | .num q => some q
  | .str s => parseNumeric s
  | _ => none

section InsertionSortDefs

variable {α : Type} (le : α → α → Bool)

/-- Insert into a sorted list (helper for `insSort`). -/
def insSorted (x : α) : List α → List α
  | [] => [x]
  | y :: ys => if le x y then x :: y :: ys else y :: insSorted x ys

/-- Structural insertion sort, used to model the ascending key sort of
pandas `pivot_table` / `groupby(sort=True)` / `sort_values`.  The key
lists being sorted are duplicate-free and the orders antisymmetric, so
the sorted result is the unique sorted arrangement, independent of the
sorting algorithm. -/
def insSort : List α → List α
  | [] => []
  | x :: xs => insSorted le x (insSort xs)

end InsertionSortDefs

/-- Lexicographic Bool comparison of character lists by code point,
matching Python string ordering. -/
def charListLE : List Char → List Char → Bool
  | [], _ => true
  | _ :: _, [] => false
  | a :: as, b :: bs =>
    if a.toNat < b.toNat then true
    else if b.toNat < a.toNat then false
    else charListLE as bs

/-- String comparison by code points (Python `<=` on `str`). -/
def strLE (a b : String) : Bool := charListLE a.data b.data

/-- Constructor rank used to totalize the cell order across types; the
sorted key columns produced by the script are type-homogeneous, so only
the within-constructor cases are ever exercised. -/
def valRank : Val → Nat
  | .na => 0
  | .num _ => 1
  | .str _ => 2
  | .pair _ _ => 3

/-- Total order on cells used to model the ascending sort that pandas
`pivot_table` / `groupby(sort=True)` / `sort_values` apply to group
keys. -/
def valLE (a b : Val) : Bool :=
  match a, b with
  | .num x, .num y => decide (x ≤ y)
  | .str x, .str y => strLE x y
  | .pair x1 x2, .pair y1 y2 =>
    if x1 = y1 then strLE x2 y2 else strLE x1 y1
  | x, y => decide (valRank x ≤ valRank y)

/-- Lexicographic order on cell pairs. -/
def pairLE (a b : Val × Val) : Bool :=
  if a.1 = b.1 then valLE a.2 b.2 else valLE a.1 b.1

/-- Lexicographic order on cell triples, used for the pivot index. -/
def tripLE (a b : Val × Val × Val) : Bool :=
  if a.1 = b.1 then pairLE a.2 b.2 else valLE a.1 b.1

/-- Whether a cell is one of the nine enumerated measure codes
(`df[measure_col].isin(MEASURE_MAP.keys())`, runner line 148). -/
def isMeasureCode (v : Val) : Bool :=
  match v with
  | .str s => measureKeys.contains s
  | _ => false

/-- The pivot index of a row: provider, snapshot year, snapshot label
(runner line 151). -/
def pivotKeyOf (cols : List String) (pc : String) (r : List Val) : Val × Val × Val :=
  (colVal cols r pc, colVal cols r "snapshot_year", colVal cols r "snapshot_label")

/-- A pivot index is grouped only when none of its levels is missing
(pandas `groupby` drops `NaN` keys). -/
def keyValid (k : Val × Val × Val) : Bool :=
  !(k.1 == Val.na) && !(k.2.1 == Val.na) && !(k.2.2 == Val.na)

/-- Rows restricted to recognized measure codes (runner line 148). -/
def pivotSubset (t : Table) (mc : String) : List (List Val) :=
  t.rows.filter (fun r => isMeasureCode (colVal t.cols r mc))

/-- Measure rows that additionally have a fully non-missing pivot index. -/
def pivotValid (t : Table) (mc pc : String) : List (List Val) :=
  (pivotSubset t mc).filter (fun r => keyValid (pivotKeyOf t.cols pc r))

/-- The distinct pivot index triples, sorted ascending as `pivot_table`
sorts its index. -/
def pivotKeysOf (t : Table) (mc pc : String) : List (Val × Val × Val) :=
  insSort tripLE ((pivotValid t mc pc).map (pivotKeyOf t.cols pc)).dedup

/-- The source rows of one `(provider, year, label, measure-code)` pivot
group, in input order. -/
def pivotGroup (t : Table) (mc pc : String) (k : Val × Val × Val) (code : String) :
    List (List Val) :=
  (pivotValid t mc pc).filter (fun r =>
    pivotKeyOf t.cols pc r == k && colVal t.cols r mc == Val.str code)

/-- One pivot cell: `aggfunc="first"` takes the first non-missing coerced
score of the group (pandas `GroupBy.first` skips `NaN`). -/
def pivotCell (t : Table) (mc pc sc : String) (k : Val × Val × Val) (code : String) :
    Option ℚ :=
  ((pivotGroup t mc pc k code).filterMap (fun r => toNumeric (colVal t.cols r sc))).head?

/-- The distinct measure codes appearing among the grouped rows, sorted
ascending as `pivot_table` sorts its columns. -/
def pivotCodesAll (t : Table) (mc pc : String) : List String :=
  insSort strLE ((pivotValid t mc pc).map (fun r => pyStr (colVal t.cols r mc))).dedup

/-- Pivot index keys kept after `pivot_table`'s default `dropna=True`
drops the aggregated `(key, code)` group rows whose first value is
missing (`agged.dropna(how="all")` before unstacking): a key survives
iff at least one of its measure-code cells is non-missing. -/
def pivotKeys (t : Table) (mc pc sc : String) : List (Val × Val × Val) :=
  (pivotKeysOf t mc pc).filter (fun k =>
    measureKeys.any (fun code => (pivotCell t mc pc sc k code).isSome))

/-- Measure-code columns kept after the same `dropna=True` pass: a code
column survives iff some group under it aggregated to a non-missing
value. -/
def pivotCodes (t : Table) (mc pc sc : String) : List String :=
  (pivotCodesAll t mc pc).filter (fun code =>
    (pivotKeysOf t mc pc).any (fun k => (pivotCell t mc pc sc k code).isSome))

/-- Missing cell to `NaN`, present cell to its number. -/
def optToVal : Option ℚ → Val
  | none => .na
  | some q => .num q

/-- Embeds `pivot_measures` (runner lines 139-158): locate the measure,
provider and score columns (empty result when any is missing), restrict
to the nine enumerated codes, coerce scores, pivot on (provider, year,
label) with `aggfunc="first"` — `pivot_table`'s default `dropna=True`
drops keys and code columns whose every aggregated value is missing —
then rename codes to labels and the provider column to `provider_id`. -/
def pivot_measures (t : Table) : Table :=
  match findMeasureCol t.cols, findProviderCol t.cols, findScoreCol t.cols with
  | some mc, some pc, some sc =>
    let codes := pivotCodes t mc pc sc
    { cols := ["provider_id", "snapshot_year", "snapshot_label"] ++ codes.map measureLabel,
      rows := (pivotKeys t mc pc sc).map (fun k =>
        [k.1, k.2.1, k.2.2] ++ codes.map (fun code => optToVal (pivotCell t mc pc sc k code))) }
  | _, _, _ => Table.empty

/-- The canonical-field to candidate-header lists (runner lines 161-170),
in source (insertion) order. -/
def facilityMapping : List (String × List String) := [
  ("provider_id", ["CMS Certification Number (CCN)", "Federal Provider Number",
    "Provider Number", "provider_number"]),
  ("facility_name", ["Provider Name", "Facility Name", "facility_name", "provider_name"]),
  ("address", ["Address Line 1", "Address", "address", "Street Address"]),
  ("city", ["City/Town", "City", "city"]),
  ("state", ["State", "state", "Provider State"]),
  ("zip_code", ["ZIP Code", "zip_code", "Zip Code", "zip"]),
  ("county_name", ["County/Parish", "County Name", "county_name", "County", "county"]),
  ("phone_number", ["Telephone Number", "Phone Number", "phone_number", "Phone", "phone"])]

/-- The resolved column map (runner lines 171-176): for each canonical
field, the first candidate header present in the table. -/
def buildColMap (cols : List String) : List (String × String) :=
  facilityMapping.filterMap (fun tc =>
    (tc.2.find? (fun c => cols.contains c)).map (fun c => (tc.1, c)))

/-- The snapshot columns appended to `keep` when present (runner lines
180-181). -/
def snapColsIn (cols : List String) : List String :=
  ["snapshot_year", "snapshot_label"].filter (fun c => cols.contains c)

/-- Embeds `drop_duplicates(subset=...)`: keep the first row for each key
value, in input order. -/
def dedupByKey (key : List Val → Val × Val) :
    List (List Val) → List (Val × Val) → List (List Val)
  | [], _ => []
  | r :: rs, seen =>
    if seen.contains (key r) then dedupByKey key rs seen
    else r :: dedupByKey key rs (key r :: seen)

/-- Embeds `build_facility_table` (runner lines 160-184): resolve the
candidate headers, return the empty frame when no provider column is
found, select the resolved and snapshot columns, drop duplicate
`(provider, snapshot_year)` rows keeping the first, and rename sources
to canonical names.  Selection and rename are fused: output column `i`
carries the value of source column `i`, which is what select-then-rename
produces since the resolved source headers are pairwise distinct and
distinct from the snapshot columns. -/
def build_facility_table (t : Table) : Table :=
  let col_map := buildColMap t.cols
  match col_map.lookup "provider_id" with
  | none => Table.empty
  | some _ =>
    let keepSrc := col_map.map (fun e => e.2) ++ snapColsIn t.cols
    let outCols := col_map.map (fun e => e.1) ++ snapColsIn t.cols
    let selRows := t.rows.map (fun r => keepSrc.map (fun c => colVal t.cols r c))
    let keyOf := fun (r : List Val) =>
      (colVal outCols r "provider_id", colVal outCols r "snapshot_year")
    { cols := outCols, rows := dedupByKey keyOf selRows [] }

/-- The id columns of the melt (runner line 190): those of the canonical
three that are present, in that order. -/
def meltIdCols (cols : List String) : List String :=
  ["provider_id", "snapshot_year", "snapshot_label"].filter (fun c => cols.contains c)

/-- The melted value columns: every column not used as an id. -/
def meltValueCols (cols : List String) : List String :=
  cols.filter (fun c => !(meltIdCols cols).contains c)

/-- Header of the melted frame: ids then `measure` and `score`. -/
def meltColsOf (cols : List String) : List String :=
  meltIdCols cols ++ ["measure", "score"]

/-- One melted row (runner line 191): id values, the measure (source
column name), and that column's value as `score`. -/
def meltRow (cols : List String) (m : String) (r : List Val) : List Val :=
  (meltIdCols cols).map (fun c => colVal cols r c) ++ [Val.str m, colVal cols r m]

/-- The full melt, iterating value columns in column order as pandas
`melt` does. -/
def meltAll (q : Table) : List (List Val) :=
  (meltValueCols q.cols).flatMap (fun m => q.rows.map (meltRow q.cols m))

/-- Melted rows surviving `.dropna()` (runner line 191): no missing value
in any field. -/
def droppedMelt (q : Table) : List (List Val) :=
  (meltAll q).filter (fun r => !(r.contains Val.na))

/-- The `(measure, snapshot_year)` group key of a melted row (runner
line 193). -/
def trendKeyOf (cols : List String) (r : List Val) : Val × Val :=
  (colVal (meltColsOf cols) r "measure", colVal (meltColsOf cols) r "snapshot_year")

/-- The distinct group keys, sorted ascending (pandas `groupby` sorts its
keys; `sort_values(["measure", "snapshot_year"])` re-sorts identically). -/
def trendKeys (q : Table) : List (Val × Val) :=
  insSort pairLE ((droppedMelt q).map (trendKeyOf q.cols)).dedup

/-- The melted rows of one `(measure, snapshot_year)` group, in melt
order. -/
def trendGroup (q : Table) (k : Val × Val) : List (List Val) :=
  (droppedMelt q).filter (fun r => trendKeyOf q.cols r == k)

/-- Numeric view of a cell (`NaN` and non-numeric cells are `none`). -/
def asNum : Val → Option ℚ
  | .num q => some q
  | _ => none

/-- All-numeric view of a list of cells; `none` when any cell is not a
number (pandas would raise `TypeError` aggregating such a column, which
never happens in the pipeline since pivot cells are coerced numerics). -/
def allNums (l : List Val) : Option (List ℚ) :=
  l.mapM asNum

/-- Arithmetic mean (pandas `mean`). -/
def listMean (l : List ℚ) : ℚ :=
  qDiv (qSum l) ((l.length : ℕ) : ℚ)

/-- Median with the pandas convention: middle element for odd length,
mean of the two middle elements for even length. -/
def listMedian (l : List ℚ) : ℚ :=
  let s := insSort (fun a b => decide (a ≤ b)) l
  if s.length % 2 = 1 then s.getD (s.length / 2) 0
  else qDiv (qAdd (s.getD (s.length / 2 - 1) 0) (s.getD (s.length / 2) 0)) 2

/-- One aggregated trend row (runner line 194): distinct-provider count
(`nunique`), mean and median of `score`. -/
def trendAggRow (q : Table) (k : Val × Val) : List Val :=
  let g := trendGroup q k
  let providers := (g.map (fun r => colVal (meltColsOf q.cols) r "provider_id")).dedup
  let scores := g.map (fun r => colVal (meltColsOf q.cols) r "score")
  let stats : Val × Val :=
    match allNums scores with
    | some qs => (Val.num (listMean qs), Val.num (listMedian qs))
    | none => (Val.na, Val.na)
  [k.1, k.2, Val.num ((providers.length : ℕ) : ℚ), stats.1, stats.2]

/-- Embeds `summarize_trends` (runner lines 187-198): empty frames pass
through; otherwise melt to long form, drop rows with any missing value,
group by `(measure, snapshot_year)`, aggregate distinct providers, mean
and median of score, and return rows sorted ascending by the group
key. -/
def summarize_trends (q : Table) : Table :=
  if q.rows.isEmpty || q.cols.isEmpty then q
  else
    { cols := ["measure", "snapshot_year", "facilities", "avg_score", "median_score"],
      rows := (trendKeys q).map (trendAggRow q) }

/-- The recognized measure-label columns present, in `MEASURE_MAP` order
(runner line 225). -/
def measureColsOf (cols : List String) : List String :=
  (MEASURE_MAP.map (fun e => e.2)).filter (fun m => cols.contains m)

/-- One measure column of the merged table as numbers-or-missing. -/
def colQ (t : Table) (c : String) : List (Option ℚ) :=
  t.rows.map (fun r => asNum (colVal t.cols r c))

/-- Average rank of a tie group preceded by `before` entries and
containing `ties` entries (pandas `rank(method="average")`):
`before + (1 + ties) / 2`. -/
def avgTiedRank (before ties : ℕ) : ℚ :=
  qAdd ((before : ℕ) : ℚ) (qDiv (qAdd 1 ((ties : ℕ) : ℚ)) 2)

/-- Embeds one entry of `rank(pct=True, na_option="bottom", axis=0)`
(runner line 227) for a column: present values are ranked ascending with
average ranks for ties; missing values are placed after all present
values as one tie group (`na_option="bottom"`); `pct=True` divides by
the column length. -/
def pctRank (col : List (Option ℚ)) (x : Option ℚ) : ℚ :=
  match x with
  | some v =>
    qDiv
      (avgTiedRank
        (col.countP (fun y => match y with | some w => decide (w < v) | none => false))
        (col.countP (fun y => y == some v)))
      ((col.length : ℕ) : ℚ)
  | none =>
    qDiv
      (avgTiedRank
        (col.countP (fun y => y.isSome))
        (col.countP (fun y => y.isNone)))
      ((col.length : ℕ) : ℚ)

/-- The composite of one row (runner line 227): mean over the present
measure columns of the row's percentile ranks. -/
def compositeOf (t : Table) (r : List Val) : ℚ :=
  let mcols := measureColsOf t.cols
  qDiv (qSum (mcols.map (fun c => pctRank (colQ t c) (asNum (colVal t.cols r c)))))
    ((mcols.length : ℕ) : ℚ)

/-- Embeds runner lines 225-227: when at least one recognized measure
column is present, assign the `composite_raw` column; otherwise the
table is left untouched (no `composite_raw` at all). -/
def compositeStep (t : Table) : Table :=
  if (measureColsOf t.cols).isEmpty then t
  else
    { cols := setColName t.cols "composite_raw",
      rows := t.rows.map (fun r => setCell t.cols r "composite_raw" (.num (compositeOf t r))) }

/-- Column union in order of first appearance (`pd.concat` with
`sort=False`). -/
def concatCols (frames : List Table) : List String :=
  frames.foldl (fun acc t => acc ++ t.cols.filter (fun c => !acc.contains c)) []

/-- Embeds `pd.concat(frames, ignore_index=True)` (runner line 215):
rows of every frame re-aligned to the unioned header, padding absent
columns with `NaN`. -/
def concatTables (frames : List Table) : Table :=
  let cols := concatCols frames
  { cols := cols,
    rows := frames.flatMap (fun t =>
      t.rows.map (fun r => cols.map (fun c => colVal t.cols r c))) }

/-- The join key of runner line 223. -/
def joinKeys : List String := ["provider_id", "snapshot_year", "snapshot_label"]

/-- Embeds `pd.merge(l, r, how="left", on=keys)` (runner line 223).
pandas raises `KeyError` when a key column is absent from either side,
modelled as `Except.error`.  Overlapping non-key columns (which pandas
would suffix) do not occur between the pivot and facility outputs, and
the pipeline's join keys are non-missing, so `NaN`-key match semantics
are not exercised. -/
def merge (l r : Table) (keys : List String) : Except String Table :=
  if !(keys.all (fun k => l.cols.contains k) && keys.all (fun k => r.cols.contains k)) then
    Except.error "KeyError: merge key not found"
  else
    let rExtra := r.cols.filter (fun c => !keys.contains c)
    Except.ok
      { cols := l.cols ++ rExtra,
        rows := l.rows.flatMap (fun lr =>
          let ms := r.rows.filter (fun rr =>
            keys.all (fun k => colVal r.cols rr k == colVal l.cols lr k))
          match ms with
          | [] => [lr ++ rExtra.map (fun _ => Val.na)]
          | ms => ms.map (fun rr => lr ++ rExtra.map (fun c => colVal r.cols rr c))) }

/-- Embeds the orchestrator `run` (runner lines 201-234).  File loading
and the live fetch are outside the embedding: `counties` is the loaded
allow-list (County, StateCode pairs), `archive_frames` the loaded
archive tables, and `live` the fetched snapshot (`none` when
`include_live` is false or the fetch failed, both of which the script
treats identically).  The `snapshot_year` guards model the
`value_counts` accesses of runner lines 216 and 219, which raise
`KeyError` on a missing column.  The two returned tables are the data
written to `snf_multi_year_quality.csv` and `snf_trend_summary.csv`; an
`error` result aborts before any output is produced. -/
def run (counties : List (Val × Val)) (archive_frames : List Table) (live : Option Table) :
    Except String (Table × Table) :=
  let frames := archive_frames ++ live.toList
  if frames.isEmpty then Except.error "No data loaded. Add archives or enable live API."
  else
    let snf_raw := concatTables frames
    if !(snf_raw.cols.contains "snapshot_year") then
      Except.error "KeyError: snapshot_year"
    else
      let snf_filtered := filter_to_counties snf_raw counties
      if !(snf_filtered.cols.contains "snapshot_year") then
        Except.error "KeyError: snapshot_year"
      else
        let facilities := build_facility_table snf_filtered
        let quality := pivot_measures snf_filtered
        match merge quality facilities joinKeys with
        | Except.error e => Except.error e
        | Except.ok merged => Except.ok (compositeStep merged, summarize_trends quality)

/-- Source table for claim C2: county, state, provider, measure and
snapshot columns are present, but no score column exists. -/
def c2frame : Table :=
  ⟨["CMS Certification Number (CCN)", "Measure Code", "County Name",
    "Provider State", "snapshot_year", "snapshot_label"],
   [[.str "A", .str "S_038_02_ADJ_RATE", .str "Sullivan County",
     .str "TN", .num 2020, .str "f.csv"]]⟩

/-- Concrete two-row table for claim C1: one present score, one missing. -/
def c1tab : Table :=
  ⟨["provider_id", "Pressure Ulcer Rate"],
   [[.str "A", .num 1], [.str "B", .na]]⟩

/-- Witness table for the amended claim C1. -/
def c1wtab : Table :=
  ⟨["provider_id", "Pressure Ulcer Rate"],
   [[.str "A", .num 3], [.str "B", .na]]⟩

/-- Witness input for claim C5: one provider with one present score. -/
def c5wtab : Table :=
  ⟨["CMS Certification Number (CCN)", "Measure Code", "Score",
    "snapshot_year", "snapshot_label"],
   [[.str "A", .str "S_038_02_ADJ_RATE", .str "5", .num 2020, .str "f.csv"]]⟩

/-- The joined table produced from the claim C5 witness input. -/
def c5wmerged : Table :=
  ⟨["provider_id", "snapshot_year", "snapshot_label", "Pressure Ulcer Rate"],
   [[.str "A", .num 2020, .str "f.csv", .num 5]]⟩

/-- Raw input tables never carry the three synthesized filter columns;
`filter_to_counties` appends them. -/
def noAuxCols (cols : List String) : Prop :=
  "county_std" ∉ cols ∧ "state_std" ∉ cols ∧ "county_state_key" ∉ cols

instance (cols : List String) : Decidable (noAuxCols cols) := by
  unfold noAuxCols
  infer_instance

/-- The Sullivan scenario table of claim C3. -/
def sullivanTable : Table :=
  ⟨["County Name", "Provider State"], [[.str "Sullivan County", .str "TN"]]⟩

/-- The Sullivan scenario allow-list of claim C3. -/
def sullivanAllow : List (Val × Val) := [(.str "SULLIVAN", .str "TN")]

/-- The join-key triple of a row, read by the canonical column names. -/
def keyTripleOf (cols : List String) (r : List Val) : Val × Val × Val :=
  (colVal cols r "provider_id", colVal cols r "snapshot_year",
    colVal cols r "snapshot_label")

/-- Cell is numeric or missing (the shape of every pivot measure cell). -/
def isNumOrNa : Val → Bool
  | .na => true
  | .num _ => true
  | _ => false

/-- Spec-side (claim C6 wording): the rows of the wide table contributing
to trend group `(m, y)` — the snapshot year equals `y` and the score for
measure `m` is not missing ("drop rows with missing score, group by
(measure, snapshot_year)"). -/
def specTrendRows (q : Table) (m : String) (y : Val) : List (List Val) :=
  q.rows.filter (fun r =>
    colVal q.cols r "snapshot_year" == y && !(colVal q.cols r m == Val.na))

/-- Spec-side: the scores of trend group `(m, y)`, in input order. -/
def specScoresQ (q : Table) (m : String) (y : Val) : List ℚ :=
  (specTrendRows q m y).filterMap (fun r => asNum (colVal q.cols r m))

/-- Spec-side: the count of distinct providers of trend group `(m, y)`. -/
def specFacilities (q : Table) (m : String) (y : Val) : ℕ :=
  ((specTrendRows q m y).map (fun r => colVal q.cols r "provider_id")).dedup.length

/-- Witness table for claim C6: two providers scoring 2 and 4 on the
same measure and year. -/
def c6wtab : Table :=
  ⟨["provider_id", "snapshot_year", "snapshot_label", "Pressure Ulcer Rate"],
   [[.str "A", .num 2020, .str "f.csv", .num 2],
    [.str "B", .num 2020, .str "f.csv", .num 4]]⟩

/-- Witness table for claim C8 (filter branch actually taken). -/
def c8wtab : Table :=
  ⟨["County Name", "Provider State"],
   [[.str "Sullivan County", .str "TN"], [.str "Knox County", .str "TN"]]⟩

/-- Witness allow-list for claim C8. -/
def c8allow : List (Val × Val) := [(.str "Sullivan", .str "tn")]

/-- The source rows of one `(provider, year, label, measure-code)` group
stated as a single pass over the input rows in input order: recognized
measure code, fully non-missing pivot key, matching key and code. -/
def c4GroupRows (t : Table) (mc pc : String) (k : Val × Val × Val) (code : String) :
    List (List Val) :=
  t.rows.filter (fun r =>
    isMeasureCode (colVal t.cols r mc) &&
      (keyValid (pivotKeyOf t.cols pc r) &&
        (pivotKeyOf t.cols pc r == k && colVal t.cols r mc == Val.str code)))

/-- Witness input for claim C4: two source rows in the same
`(provider, year, label, measure)` group with scores 7 and 9. -/
def c4wtab : Table :=
  ⟨["CMS Certification Number (CCN)", "Measure Code", "Score",
    "snapshot_year", "snapshot_label"],
   [[.str "A", .str "S_038_02_ADJ_RATE", .str "7", .num 2020, .str "f.csv"],
    [.str "A", .str "S_038_02_ADJ_RATE", .str "9", .num 2020, .str "f.csv"]]⟩

/-- Witness input for claim C10. -/
def c10wtab : Table :=
  ⟨["CMS Certification Number (CCN)", "Measure Code", "Score",
    "snapshot_year", "snapshot_label"],
   [[.str "A", .str "S_038_02_ADJ_RATE", .str "5", .num 2020, .str "f.csv"]]⟩

lemma qAdd_eq (a b : ℚ) : qAdd a b = a + b := by
  have ha : ((a.den : ℚ)) ≠ 0 := Nat.cast_ne_zero.mpr a.den_nz
  have hb : ((b.den : ℚ)) ≠ 0 := Nat.cast_ne_zero.mpr b.den_nz
  rw [qAdd, Rat.divInt_eq_div]
  push_cast
  rw [eq_comm]
  conv_lhs => rw [← Rat.num_div_den a, ← Rat.num_div_den b]
  field_simp

lemma qDiv_eq (a b : ℚ) : qDiv a b = a / b := by
  rcases eq_or_ne b 0 with hb | hb
  · subst hb
    simp [qDiv]
  · have ha : ((a.den : ℚ)) ≠ 0 := Nat.cast_ne_zero.mpr a.den_nz
    have hbd : ((b.den : ℚ)) ≠ 0 := Nat.cast_ne_zero.mpr b.den_nz
    have hbn : ((b.num : ℚ)) ≠ 0 := by
      exact_mod_cast Rat.num_ne_zero.mpr hb
    rw [qDiv, Rat.divInt_eq_div]
    push_cast
    rw [eq_comm]
    conv_lhs => rw [← Rat.num_div_den a, ← Rat.num_div_den b]
    field_simp

lemma qSum_eq (l : List ℚ) : qSum l = l.sum := by
  induction l with
  | nil => rfl
  | cons x xs ih => rw [qSum, qAdd_eq, ih, List.sum_cons]

section InsertionSortLemmas

variable {α : Type} (le : α → α → Bool)

lemma insSorted_perm (x : α) (l : List α) : List.Perm (insSorted le x l) (x :: l) := by
  induction l with
  | nil => simp [insSorted]
  | cons y ys ih =>
    rw [insSorted]
    split
    · exact List.Perm.refl _
    · exact (List.Perm.cons y ih).trans (List.Perm.swap x y ys)

lemma insSort_perm (l : List α) : List.Perm (insSort le l) l := by
  induction l with
  | nil => simp [insSort]
  | cons x xs ih => exact (insSorted_perm le x (insSort le xs)).trans (ih.cons x)

lemma mem_insSort (x : α) (l : List α) : x ∈ insSort le l ↔ x ∈ l :=
  (insSort_perm le l).mem_iff

lemma insSort_nodup (l : List α) (h : l.Nodup) : (insSort le l).Nodup :=
  (insSort_perm le l).nodup_iff.mpr h

lemma insSorted_pairwise
    (trans : ∀ a b c, le a b → le b c → le a c)
    (total : ∀ a b, le a b || le b a)
    (x : α) (l : List α) (h : l.Pairwise (fun a b => le a b)) :
    (insSorted le x l).Pairwise (fun a b => le a b) := by
  induction l with
  | nil => simp [insSorted]
  | cons y ys ih =>
    rw [insSorted]
    rcases List.pairwise_cons.mp h with ⟨hy, hys⟩
    split
    · rename_i hxy
      refine List.pairwise_cons.mpr ⟨?_, h⟩
      intro b hb
      rcases List.mem_cons.mp hb with hb | hb
      · subst hb; exact hxy
      · exact trans x y b hxy (hy _ hb)
    · rename_i hxy
      have hyx : le y x := by
        have htot := total x y
        simp only [Bool.or_eq_true] at htot
        rcases htot with h1 | h1
        · exact absurd h1 hxy
        · exact h1
      refine List.pairwise_cons.mpr ⟨?_, ih hys⟩
      intro b hb
      rw [(insSorted_perm le x ys).mem_iff] at hb
      rcases List.mem_cons.mp hb with hb | hb
      · subst hb; exact hyx
      · exact hy _ hb

lemma insSort_pairwise
    (trans : ∀ a b c, le a b → le b c → le a c)
    (total : ∀ a b, le a b || le b a)
    (l : List α) : (insSort le l).Pairwise (fun a b => le a b) := by
  induction l with
  | nil => simp [insSort]
  | cons x xs ih => exact insSorted_pairwise le trans total x _ ih

end InsertionSortLemmas

example : parseNumeric "12.5" = some (mkRat 25 2) := by decide

example : parseNumeric " -3" = some (-3 : ℚ) := by decide

example : parseNumeric "abc" = none := by decide

example : parseNumeric "" = none := by decide

example :
    pivot_measures
      ⟨["CMS Certification Number (CCN)", "Measure Code", "Score",
        "snapshot_year", "snapshot_label"],
       [[.str "A", .str "S_038_02_ADJ_RATE", .str "12.5", .num 2020, .str "f.csv"],
        [.str "A", .str "S_038_02_ADJ_RATE", .str "99", .num 2020, .str "f.csv"],
        [.str "A", .str "OTHER_CODE", .str "1", .num 2020, .str "f.csv"]]⟩ =
    ⟨["provider_id", "snapshot_year", "snapshot_label", "Pressure Ulcer Rate"],
     [[.str "A", .num 2020, .str "f.csv", .num (mkRat 25 2)]]⟩ := by decide

example :
    build_facility_table
      ⟨["CMS Certification Number (CCN)", "Provider Name", "snapshot_year"],
       [[.str "A", .str "Alpha", .num 2020],
        [.str "A", .str "AlphaDup", .num 2020],
        [.str "B", .str "Beta", .num 2020]]⟩ =
    ⟨["provider_id", "facility_name", "snapshot_year"],
     [[.str "A", .str "Alpha", .num 2020], [.str "B", .str "Beta", .num 2020]]⟩ := by
  decide

example :
    summarize_trends
      ⟨["provider_id", "snapshot_year", "snapshot_label", "Pressure Ulcer Rate"],
       [[.str "A", .num 2020, .str "f.csv", .num 2],
        [.str "B", .num 2020, .str "f.csv", .num 4]]⟩ =
    ⟨["measure", "snapshot_year", "facilities", "avg_score", "median_score"],
     [[.str "Pressure Ulcer Rate", .num 2020, .num 2, .num 3, .num 3]]⟩ := by decide

example :
    compositeStep
      ⟨["provider_id", "Pressure Ulcer Rate"],
       [[.str "A", .num 1], [.str "B", .na]]⟩ =
    ⟨["provider_id", "Pressure Ulcer Rate", "composite_raw"],
     [[.str "A", .num 1, .num (mkRat 1 2)], [.str "B", .na, .num 1]]⟩ := by decide

example :
    run [] [] none = Except.error "No data loaded. Add archives or enable live API." := by
  decide

example :
    (run [(.str "SULLIVAN", .str "TN")]
      [⟨["CMS Certification Number (CCN)", "Measure Code", "County Name",
         "Provider State", "snapshot_year", "snapshot_label"],
        [[.str "A", .str "S_038_02_ADJ_RATE", .str "Sullivan County",
          .str "TN", .num 2020, .str "f.csv"]]⟩] none) =
    Except.error "KeyError: merge key not found" := by decide

example : normalize_county (.str "Sullivan County") = "SULLIVAN" := by decide

example : normalize_county (.str " washington parish ") = "WASHINGTON" := by decide

example : normState (.str " tn ") = "TN" := by decide

lemma contains_iff_mem {α : Type} [BEq α] [LawfulBEq α] (l : List α) (a : α) :
    l.contains a ↔ a ∈ l := by
  simp [List.contains]

lemma contains_false_of_not_mem {α : Type} [BEq α] [LawfulBEq α] {l : List α} {a : α}
    (h : a ∉ l) : l.contains a = false := by
  rw [← Bool.not_eq_true]
  simpa [contains_iff_mem] using h

lemma countP_add_le_countP {α : Type} (p q s : α → Bool) (l : List α)
    (hpq : ∀ x ∈ l, ¬(p x = true ∧ q x = true))
    (hps : ∀ x ∈ l, p x = true → s x = true)
    (hqs : ∀ x ∈ l, q x = true → s x = true) :
    l.countP p + l.countP q ≤ l.countP s := by
  induction l with
  | nil => simp
  | cons a as ih =>
    have hrec := ih (fun x hx => hpq x (List.mem_cons_of_mem _ hx))
      (fun x hx => hps x (List.mem_cons_of_mem _ hx))
      (fun x hx => hqs x (List.mem_cons_of_mem _ hx))
    have ha1 := hpq a (List.mem_cons_self _ _)
    have ha2 := hps a (List.mem_cons_self _ _)
    have ha3 := hqs a (List.mem_cons_self _ _)
    rw [List.countP_cons, List.countP_cons, List.countP_cons]
    by_cases hp : p a = true <;> by_cases hq : q a = true <;> simp_all <;> omega

lemma avgTiedRank_eq (b t : ℕ) : avgTiedRank b t = (b : ℚ) + (1 + (t : ℚ)) / 2 := by
  rw [avgTiedRank, qAdd_eq, qDiv_eq, qAdd_eq]

/-- Every entry of a ranked column receives a percentile in `(0, 1]`. -/
lemma pctRank_pos_le_one (col : List (Option ℚ)) (x : Option ℚ) (hx : x ∈ col) :
    0 < pctRank col x ∧ pctRank col x ≤ 1 := by
  have hn : 0 < col.length := List.length_pos.mpr (List.ne_nil_of_mem hx)
  have hnq : (0 : ℚ) < (col.length : ℚ) := by exact_mod_cast hn
  cases x with
  | some v =>
    simp only [pctRank]
    rw [qDiv_eq, avgTiedRank_eq]
    set a := col.countP (fun y => match y with | some w => decide (w < v) | none => false)
      with ha
    set b := col.countP (fun y => y == some v) with hb
    have hb1 : 1 ≤ b := by
      rw [hb]
      refine Nat.succ_le_of_lt (List.countP_pos_iff.mpr ⟨some v, hx, by simp⟩)
    have hab : a + b ≤ col.length := by
      have := countP_add_le_countP
        (fun y => match y with | some w => decide (w < v) | none => false)
        (fun y => y == some v) (fun _ => true) col
        (by
          intro y hy hcontra
          rcases hcontra with ⟨h1, h2⟩
          have : y = some v := by simpa using h2
          subst this
          simp at h1)
        (by intro y hy h; rfl) (by intro y hy h; rfl)
      simpa using this
    have hb1q : (1 : ℚ) ≤ (b : ℚ) := by exact_mod_cast hb1
    have habq : (a : ℚ) + (b : ℚ) ≤ (col.length : ℚ) := by exact_mod_cast hab
    have ha0 : (0 : ℚ) ≤ (a : ℚ) := by positivity
    constructor
    · apply div_pos _ hnq
      linarith
    · rw [div_le_one hnq]
      linarith
  | none =>
    simp only [pctRank]
    rw [qDiv_eq, avgTiedRank_eq]
    set a := col.countP (fun y => y.isSome) with ha
    set b := col.countP (fun y => y.isNone) with hb
    have hb1 : 1 ≤ b := by
      rw [hb]
      refine Nat.succ_le_of_lt (List.countP_pos_iff.mpr ⟨none, hx, by simp⟩)
    have hab : a + b ≤ col.length := by
      have := countP_add_le_countP (fun y => y.isSome) (fun y => y.isNone)
        (fun _ => true) col
        (by
          intro y hy hcontra
          rcases hcontra with ⟨h1, h2⟩
          cases y <;> simp_all)
        (by intro y hy h; rfl) (by intro y hy h; rfl)
      simpa using this
    have hb1q : (1 : ℚ) ≤ (b : ℚ) := by exact_mod_cast hb1
    have habq : (a : ℚ) + (b : ℚ) ≤ (col.length : ℚ) := by exact_mod_cast hab
    have ha0 : (0 : ℚ) ≤ (a : ℚ) := by positivity
    constructor
    · apply div_pos _ hnq
      linarith
    · rw [div_le_one hnq]
      linarith

/-- A missing entry ranks strictly after every present entry of its
column under `na_option="bottom"`. -/
lemma pctRank_some_lt_none (col : List (Option ℚ)) (v : ℚ)
    (hv : some v ∈ col) (hna : (none : Option ℚ) ∈ col) :
    pctRank col (some v) < pctRank col none := by
  have hn : 0 < col.length := List.length_pos.mpr (List.ne_nil_of_mem hv)
  have hnq : (0 : ℚ) < (col.length : ℚ) := by exact_mod_cast hn
  simp only [pctRank]
  rw [qDiv_eq, qDiv_eq, avgTiedRank_eq, avgTiedRank_eq]
  set a := col.countP (fun y => match y with | some w => decide (w < v) | none => false)
    with ha
  set b := col.countP (fun y => y == some v) with hb
  set s := col.countP (fun y => y.isSome) with hs
  set n := col.countP (fun y => y.isNone) with hnn
  have hb1 : 1 ≤ b := by
    rw [hb]
    refine Nat.succ_le_of_lt (List.countP_pos_iff.mpr ⟨some v, hv, by simp⟩)
  have hn1 : 1 ≤ n := by
    rw [hnn]
    refine Nat.succ_le_of_lt (List.countP_pos_iff.mpr ⟨none, hna, by simp⟩)
  have habs : a + b ≤ s := by
    rw [ha, hb, hs]
    refine countP_add_le_countP _ _ _ col ?_ ?_ ?_
    · intro y hy hcontra
      rcases hcontra with ⟨h1, h2⟩
      have : y = some v := by simpa using h2
      subst this
      simp at h1
    · intro y hy h
      cases y <;> simp_all
    · intro y hy h
      cases y <;> simp_all
  have hb1q : (1 : ℚ) ≤ (b : ℚ) := by exact_mod_cast hb1
  have hn1q : (1 : ℚ) ≤ (n : ℚ) := by exact_mod_cast hn1
  have habsq : (a : ℚ) + (b : ℚ) ≤ (s : ℚ) := by exact_mod_cast habs
  apply div_lt_div_of_pos_right _ hnq
  linarith

/-- The composite of a row of the table lies in `(0, 1]` whenever at
least one recognized measure column is present. -/
lemma compositeOf_bounds (t : Table) (r : List Val) (hr : r ∈ t.rows)
    (hm : measureColsOf t.cols ≠ []) :
    0 < compositeOf t r ∧ compositeOf t r ≤ 1 := by
  rw [compositeOf]
  set L := (measureColsOf t.cols).map
    (fun c => pctRank (colQ t c) (asNum (colVal t.cols r c))) with hL
  have hLlen : L.length = (measureColsOf t.cols).length := by
    rw [hL, List.length_map]
  have hLne : L ≠ [] := by
    rw [hL]
    simpa using hm
  have hmem : ∀ x ∈ L, 0 < x ∧ x ≤ 1 := by
    intro x hxL
    rw [hL] at hxL
    rcases List.mem_map.mp hxL with ⟨c, hc, rfl⟩
    exact pctRank_pos_le_one _ _ (List.mem_map_of_mem _ hr)
  rw [qDiv_eq, qSum_eq]
  have hlen0 : 0 < (measureColsOf t.cols).length := List.length_pos.mpr hm
  have hlenq : (0 : ℚ) < ((measureColsOf t.cols).length : ℚ) := by exact_mod_cast hlen0
  have hsumpos : 0 < L.sum := List.sum_pos L (fun x hx => (hmem x hx).1) hLne
  have hsumle : L.sum ≤ ((measureColsOf t.cols).length : ℚ) := by
    have := List.sum_le_card_nsmul L 1 (fun x hx => (hmem x hx).2)
    rw [hLlen] at this
    simpa [nsmul_eq_mul] using this
  exact ⟨div_pos hsumpos hlenq, by rw [div_le_one hlenq]; exact hsumle⟩

lemma colVal_setCell_self (cols : List String) (r : List Val) (c : String) (v : Val)
    (h : r.length = cols.length) :
    colVal (setColName cols c) (setCell cols r c v) c = v := by
  by_cases hc : c ∈ cols
  · have hidx : cols.indexOf c < r.length := by
      rw [h]
      exact List.indexOf_lt_length.mpr hc
    simp only [setColName, setCell, if_pos ((contains_iff_mem cols c).mpr hc)]
    rw [colVal, List.getD_eq_getElem?_getD, List.getElem?_set_self
      (by simpa using hidx)]
    rfl
  · have hcc : cols.contains c = false := by
      rw [← Bool.not_eq_true]
      simpa [contains_iff_mem] using hc
    simp only [setColName, setCell, hcc, Bool.false_eq_true, if_false]
    rw [colVal, List.indexOf_append_of_not_mem hc]
    simp [List.getD_eq_getElem?_getD, List.getElem?_append_right, h]

lemma colVal_setCell_ne (cols : List String) (r : List Val) (c : String) (v : Val)
    (d : String) (h : r.length = cols.length) (hdc : d ≠ c) :
    colVal (setColName cols c) (setCell cols r c v) d = colVal cols r d := by
  by_cases hc : c ∈ cols
  · simp only [setColName, setCell, if_pos ((contains_iff_mem cols c).mpr hc)]
    rw [colVal, colVal, List.getD_eq_getElem?_getD, List.getD_eq_getElem?_getD]
    have hne : cols.indexOf c ≠ cols.indexOf d := by
      intro he
      by_cases hd : d ∈ cols
      · have h1 : cols.get ⟨cols.indexOf c, List.indexOf_lt_length.mpr hc⟩ = c :=
          List.indexOf_get _
        have h2 : cols.get ⟨cols.indexOf d, List.indexOf_lt_length.mpr hd⟩ = d :=
          List.indexOf_get _
        apply hdc
        rw [← h2, ← h1]
        congr 1
        exact (Fin.mk_eq_mk.mpr he.symm)
      · have hdl : cols.indexOf d = cols.length := List.indexOf_eq_length.mpr hd
        have hcl : cols.indexOf c < cols.length := List.indexOf_lt_length.mpr hc
        omega
    rw [List.getElem?_set_ne hne]
  · have hcc : cols.contains c = false := by
      rw [← Bool.not_eq_true]
      simpa [contains_iff_mem] using hc
    simp only [setColName, setCell, hcc, Bool.false_eq_true, if_false]
    rw [colVal, colVal, List.getD_eq_getElem?_getD, List.getD_eq_getElem?_getD]
    by_cases hd : d ∈ cols
    · rw [List.indexOf_append_of_mem hd]
      have hlt : cols.indexOf d < r.length := by
        rw [h]
        exact List.indexOf_lt_length.mpr hd
      rw [List.getElem?_append_left hlt]
    · have hd2 : d ∉ cols ++ [c] := by
        intro hmem
        rcases List.mem_append.mp hmem with h1 | h1
        · exact hd h1
        · exact hdc (List.mem_singleton.mp h1)
      rw [List.indexOf_eq_length.mpr hd2, List.indexOf_eq_length.mpr hd]
      have h1 : (cols ++ [c]).length = r.length + 1 := by
        simp [h]
      have h2 : (r ++ [v]).length = r.length + 1 := by simp
      rw [List.getElem?_eq_none (by simp [h1, h2]), List.getElem?_eq_none (by omega)]

lemma length_setCell (cols : List String) (r : List Val) (c : String) (v : Val)
    (h : r.length = cols.length) :
    (setCell cols r c v).length = (setColName cols c).length := by
  by_cases hc : c ∈ cols
  · rw [setCell, setColName, if_pos ((contains_iff_mem cols c).mpr hc),
      if_pos ((contains_iff_mem cols c).mpr hc)]
    simp [h]
  · have hcc : cols.contains c = false := by
      rw [← Bool.not_eq_true]
      simpa [contains_iff_mem] using hc
    rw [setCell, setColName, if_neg (by simp [hcc]; exact hc),
      if_neg (by simp [hcc]; exact hc)]
    simp [h]

/-- Claim C9: with zero archive frames and no live snapshot, the run
aborts with the `No data loaded` error before producing any output. -/
theorem c9_zero_sources_abort (counties : List (Val × Val)) :
    run counties [] none =
      Except.error "No data loaded. Add archives or enable live API." := rfl

/-- Claim C2, evaluated at the failing input: the pivot does return an
empty frame when the score column cannot be located, but the orchestrator
does not continue — the downstream `pd.merge` raises `KeyError` because
the empty pivot lacks the join-key columns, so the run aborts with no
exports. -/
theorem c2_missing_score_aborts_run :
    findScoreCol c2frame.cols = none ∧
    pivot_measures c2frame = Table.empty ∧
    run [(.str "SULLIVAN", .str "TN")] [c2frame] none =
      Except.error "KeyError: merge key not found" := by decide

/-- Claim C1 as stated is false: in `c1tab` the row with the missing
measure value receives percentile rank `1` — the bottom of the ascending
(lower-is-better) ranking, not rank-0/"best" — and its rank is strictly
greater than the rank of the row whose value is present, so the missing
row is not assigned the most favorable rank. -/
theorem c1_counterexample :
    compositeStep c1tab =
      ⟨["provider_id", "Pressure Ulcer Rate", "composite_raw"],
       [[.str "A", .num 1, .num (mkRat 1 2)], [.str "B", .na, .num 1]]⟩ ∧
    pctRank (colQ c1tab "Pressure Ulcer Rate") none = 1 ∧
    ¬ pctRank (colQ c1tab "Pressure Ulcer Rate") none ≤
        pctRank (colQ c1tab "Pressure Ulcer Rate") (some 1) := by decide

/-- Claim C1 amended: in the composite computation (the percentile rank
taken per measure column before the row-wise mean), a row with a missing
value for a present measure column is assigned the LEAST favorable rank
for that column — strictly greater than the rank of every row whose
value is present (`na_option="bottom"` ranks missing values after all
present ones). -/
theorem c1_missing_ranked_least_favorable (t : Table) (c : String)
    (hc : c ∈ measureColsOf t.cols) (r r₁ : List Val)
    (hr : r ∈ t.rows) (hr₁ : r₁ ∈ t.rows) (v : ℚ)
    (hmiss : asNum (colVal t.cols r c) = none)
    (hpres : asNum (colVal t.cols r₁ c) = some v) :
    pctRank (colQ t c) (some v) < pctRank (colQ t c) none := by
  apply pctRank_some_lt_none
  · rw [← hpres]
    exact List.mem_map_of_mem _ hr₁
  · rw [← hmiss]
    exact List.mem_map_of_mem _ hr

theorem c1_witness :
    "Pressure Ulcer Rate" ∈ measureColsOf c1wtab.cols ∧
    [Val.str "B", Val.na] ∈ c1wtab.rows ∧
    [Val.str "A", Val.num 3] ∈ c1wtab.rows ∧
    asNum (colVal c1wtab.cols [Val.str "B", Val.na] "Pressure Ulcer Rate") = none ∧
    asNum (colVal c1wtab.cols [Val.str "A", Val.num 3] "Pressure Ulcer Rate") = some 3 ∧
    pctRank (colQ c1wtab "Pressure Ulcer Rate") (some 3) <
      pctRank (colQ c1wtab "Pressure Ulcer Rate") none :=
  ⟨by decide, by decide, by decide, by decide, by decide,
    c1_missing_ranked_least_favorable c1wtab "Pressure Ulcer Rate" (by decide)
      [Val.str "B", Val.na] [Val.str "A", Val.num 3]
      (by decide) (by decide) 3 (by decide) (by decide)⟩

/-- On a table without the synthesized columns, the augmentation of
`filter_to_counties` appends exactly the three normalization cells. -/
lemma augRow_noaux (cols ccols scols : List String) (r : List Val)
    (h : noAuxCols cols) :
    augRow cols ccols scols r =
      r ++ [Val.str (rowKeyCS cols ccols scols r).1,
            Val.str (rowKeyCS cols ccols scols r).2,
            Val.pair (rowKeyCS cols ccols scols r).1 (rowKeyCS cols ccols scols r).2] := by
  obtain ⟨h1, h2, h3⟩ := h
  have hc1 : cols.contains "county_std" = false := contains_false_of_not_mem h1
  have hc2 : (cols ++ ["county_std"]).contains "state_std" = false := by
    apply contains_false_of_not_mem
    intro hmem
    rcases List.mem_append.mp hmem with hm | hm
    · exact h2 hm
    · exact absurd (List.mem_singleton.mp hm) (by decide)
  have hc3 : (cols ++ ["county_std"] ++ ["state_std"]).contains "county_state_key" = false := by
    apply contains_false_of_not_mem
    intro hmem
    rcases List.mem_append.mp hmem with hm | hm
    · rcases List.mem_append.mp hm with hm2 | hm2
      · exact h3 hm2
      · exact absurd (List.mem_singleton.mp hm2) (by decide)
    · exact absurd (List.mem_singleton.mp hm) (by decide)
  rw [augRow]
  simp only [setColName, setCell, hc1, hc2, hc3, Bool.false_eq_true, if_false]
  simp [List.append_assoc]

/-- Claim C3: with county and state columns located and a raw (non
synthesized) header set, a row survives the Geographic Filter iff its
normalized `(county, state)` pair — `normalize_county` on the county,
trim/upper on the state, applied identically to the allow-list — is a
member of the normalized allow-list. -/
theorem c3_filter_membership (t : Table) (cs : List (Val × Val))
    (hwf : t.WF) (hna : noAuxCols t.cols)
    (hc : countyColsOf t.cols ≠ []) (hs : stateColsOf t.cols ≠ [])
    (r : List Val) (hr : r ∈ t.rows) :
    (augRow t.cols (countyColsOf t.cols) (stateColsOf t.cols) r ∈
        (filter_to_counties t cs).rows) ↔
      rowKeyCS t.cols (countyColsOf t.cols) (stateColsOf t.cols) r ∈ normAllowed cs := by
  rw [filter_to_counties]
  rw [if_neg (by simp [List.isEmpty_iff, hc, hs])]
  simp only [List.mem_filterMap]
  constructor
  · rintro ⟨a, ha, hfa⟩
    by_cases hk : (normAllowed cs).contains
        (rowKeyCS t.cols (countyColsOf t.cols) (stateColsOf t.cols) a)
    · rw [if_pos hk] at hfa
      have heq := Option.some.inj hfa
      rw [augRow_noaux _ _ _ _ hna, augRow_noaux _ _ _ _ hna] at heq
      have hlen : a.length = r.length := by rw [hwf a ha, hwf r hr]
      have har : a = r := (List.append_inj heq hlen).1
      subst har
      exact (contains_iff_mem _ _).mp hk
    · rw [if_neg hk] at hfa
      exact absurd hfa (by simp)
  · intro hk
    exact ⟨r, hr, by rw [if_pos ((contains_iff_mem _ _).mpr hk)]⟩

theorem c3_witness :
    sullivanTable.WF ∧ noAuxCols sullivanTable.cols ∧
    countyColsOf sullivanTable.cols ≠ [] ∧ stateColsOf sullivanTable.cols ≠ [] ∧
    [Val.str "Sullivan County", Val.str "TN"] ∈ sullivanTable.rows ∧
    augRow sullivanTable.cols (countyColsOf sullivanTable.cols)
        (stateColsOf sullivanTable.cols) [Val.str "Sullivan County", Val.str "TN"] ∈
      (filter_to_counties sullivanTable sullivanAllow).rows :=
  ⟨by decide, by decide, by decide, by decide, by decide,
    (c3_filter_membership sullivanTable sullivanAllow (by decide) (by decide)
      (by decide) (by decide) [Val.str "Sullivan County", Val.str "TN"]
      (by decide)).mpr (by decide)⟩

lemma lookup_some_mem {β : Type} {l : List (String × β)} {a : String} {b : β}
    (h : l.lookup a = some b) : (a, b) ∈ l := by
  induction l with
  | nil => simp at h
  | cons e es ih =>
    obtain ⟨k, v⟩ := e
    rw [List.lookup_cons] at h
    by_cases hk : (a == k) = true
    · have hak : a = k := eq_of_beq hk
      rw [hk] at h
      simp only at h
      have hb : v = b := Option.some.inj h
      subst hak
      subst hb
      exact List.mem_cons_self _ _
    · rw [Bool.not_eq_true] at hk
      rw [hk] at h
      simp only at h
      exact List.mem_cons_of_mem _ (ih h)

lemma flatMap_length_const {α β : Type} (l : List α) (f : α → List β)
    (h : ∀ a ∈ l, (f a).length = 1) : (l.flatMap f).length = l.length := by
  induction l with
  | nil => simp
  | cons x xs ih =>
    rw [List.flatMap_cons, List.length_append, h x (List.mem_cons_self _ _),
      ih (fun a ha => h a (List.mem_cons_of_mem _ ha)), List.length_cons]
    omega

lemma filter_length_le_one {α β : Type} (l : List α) (key : α → β)
    (hp : l.Pairwise (fun a b => key a ≠ key b)) (p : α → Bool)
    (hcons : ∀ a ∈ l, ∀ b ∈ l, p a = true → p b = true → key a = key b) :
    (l.filter p).length ≤ 1 := by
  induction l with
  | nil => simp
  | cons x xs ih =>
    rw [List.filter_cons]
    rcases List.pairwise_cons.mp hp with ⟨hx, hxs⟩
    by_cases hpx : p x = true
    · rw [if_pos hpx]
      have hempty : xs.filter p = [] := by
        rw [List.filter_eq_nil_iff]
        intro b hb hpb
        exact hx b hb (hcons x (List.mem_cons_self _ _) b (List.mem_cons_of_mem _ hb) hpx hpb)
      simp [hempty]
    · rw [if_neg hpx]
      exact ih hxs (fun a ha b hb =>
        hcons a (List.mem_cons_of_mem _ ha) b (List.mem_cons_of_mem _ hb))

/-- Shared shape facts for a left join whose right side is unique on a
key determined by the join columns: the merge succeeds and yields exactly
one output row per left row. -/
lemma merge_rows_length (L R : Table) (keys : List String) {β : Type}
    (hLk : keys.all (fun k => L.cols.contains k) = true)
    (hRk : keys.all (fun k => R.cols.contains k) = true)
    (key : List Val → β)
    (hpair : R.rows.Pairwise (fun a b => key a ≠ key b))
    (hdet : ∀ lr, ∀ a ∈ R.rows, ∀ b ∈ R.rows,
      keys.all (fun k => colVal R.cols a k == colVal L.cols lr k) = true →
      keys.all (fun k => colVal R.cols b k == colVal L.cols lr k) = true →
      key a = key b) :
    ∃ m, merge L R keys = Except.ok m ∧ m.rows.length = L.rows.length := by
  have hL : ∀ x ∈ keys, x ∈ L.cols := by
    intro x hx
    exact (contains_iff_mem _ _).mp (List.all_eq_true.mp hLk x hx)
  have hR : ∀ x ∈ keys, x ∈ R.cols := by
    intro x hx
    exact (contains_iff_mem _ _).mp (List.all_eq_true.mp hRk x hx)
  rw [merge, if_neg (by simp; exact ⟨hL, hR⟩)]
  refine ⟨_, rfl, ?_⟩
  apply flatMap_length_const
  intro lr hlr
  have hle : (R.rows.filter
      (fun rr => keys.all (fun k => colVal R.cols rr k == colVal L.cols lr k))).length ≤ 1 :=
    filter_length_le_one R.rows key hpair _
      (fun a ha b hb hpa hpb => hdet lr a ha b hb hpa hpb)
  cases hms : R.rows.filter
      (fun rr => keys.all (fun k => colVal R.cols rr k == colVal L.cols lr k)) with
  | nil => simp [hms]
  | cons y ys =>
    rw [hms] at hle
    simp only [List.length_cons] at hle
    have hys : ys = [] := List.length_eq_zero.mp (by omega)
    subst hys
    simp [hms]

lemma dedupByKey_mem_key_not_seen (key : List Val → Val × Val) (l : List (List Val)) :
    ∀ seen, ∀ a ∈ dedupByKey key l seen, key a ∉ seen := by
  induction l with
  | nil => intro seen a ha; simp [dedupByKey] at ha
  | cons x xs ih =>
    intro seen a ha
    rw [dedupByKey] at ha
    split at ha
    · exact ih seen a ha
    · rename_i hx
      rcases List.mem_cons.mp ha with rfl | ha
      · intro hcon
        exact absurd ((contains_iff_mem _ _).mpr hcon) (by simpa [contains_iff_mem] using hx)
      · intro hcon
        exact ih (key x :: seen) a ha (List.mem_cons_of_mem _ hcon)

lemma dedupByKey_pairwise (key : List Val → Val × Val) (l : List (List Val)) :
    ∀ seen, (dedupByKey key l seen).Pairwise (fun a b => key a ≠ key b) := by
  induction l with
  | nil => intro seen; simp [dedupByKey]
  | cons x xs ih =>
    intro seen
    rw [dedupByKey]
    split
    · exact ih seen
    · refine List.pairwise_cons.mpr ⟨?_, ih (key x :: seen)⟩
      intro b hb heq
      exact dedupByKey_mem_key_not_seen key xs (key x :: seen) b hb
        (by rw [← heq]; exact List.mem_cons_self _ _)

/-- Reading the canonical key names from a pivot output row recovers the
group key: the three key columns head the header, so `indexOf` resolves
them at positions 0, 1 and 2. -/
lemma keyTripleOf_pivot_row (labels : List String) (k : Val × Val × Val)
    (cells : List Val) :
    keyTripleOf (["provider_id", "snapshot_year", "snapshot_label"] ++ labels)
      ([k.1, k.2.1, k.2.2] ++ cells) = k := by
  have h1 : List.indexOf "provider_id"
      ("provider_id" :: "snapshot_year" :: "snapshot_label" :: labels) = 0 :=
    List.indexOf_cons_self _ _
  have h2 : List.indexOf "snapshot_year"
      ("provider_id" :: "snapshot_year" :: "snapshot_label" :: labels) = 1 := by
    rw [List.indexOf_cons_ne _ (by decide), List.indexOf_cons_self]
  have h3 : List.indexOf "snapshot_label"
      ("provider_id" :: "snapshot_year" :: "snapshot_label" :: labels) = 2 := by
    rw [List.indexOf_cons_ne _ (by decide), List.indexOf_cons_ne _ (by decide),
      List.indexOf_cons_self]
  simp only [keyTripleOf, colVal, List.cons_append, List.nil_append, List.indexOf]
    at h1 h2 h3 ⊢
  rw [h1, h2, h3]
  rfl

lemma charListLE_total : ∀ as bs, (charListLE as bs || charListLE bs as) = true := by
  intro as
  induction as with
  | nil => intro bs; simp [charListLE]
  | cons a as ih =>
    intro bs
    cases bs with
    | nil => simp [charListLE]
    | cons b bs =>
      rw [charListLE, charListLE]
      rcases Nat.lt_trichotomy a.toNat b.toNat with h | h | h
      · rw [if_pos h, Bool.true_or]
      · rw [if_neg (by omega), if_neg (by omega), if_neg (by omega), if_neg (by omega)]
        exact ih bs
      · rw [if_neg (by omega), if_pos h, Bool.false_or, if_pos h]

lemma charListLE_trans : ∀ as bs cs, charListLE as bs = true → charListLE bs cs = true →
    charListLE as cs = true := by
  intro as
  induction as with
  | nil => intro bs cs h1 h2; simp [charListLE]
  | cons a as ih =>
    intro bs cs h1 h2
    cases bs with
    | nil => simp [charListLE] at h1
    | cons b bs =>
      cases cs with
      | nil => simp [charListLE] at h2
      | cons c cs =>
        rw [charListLE] at h1 h2 ⊢
        split_ifs at h1 h2 ⊢ <;> try rfl
        all_goals try omega
        all_goals try exact h1
        all_goals try exact h2
        all_goals try simp_all
        exact ih bs cs h1 h2

lemma charListLE_antisymm : ∀ as bs, charListLE as bs = true → charListLE bs as = true →
    as = bs := by
  intro as
  induction as with
  | nil =>
    intro bs h1 h2
    cases bs with
    | nil => rfl
    | cons b bs => simp [charListLE] at h2
  | cons a as ih =>
    intro bs h1 h2
    cases bs with
    | nil => simp [charListLE] at h1
    | cons b bs =>
      rw [charListLE] at h1 h2
      split_ifs at h1 h2 <;>
        first
          | omega
          | (exact absurd h1 Bool.false_ne_true)
          | (exact absurd h2 Bool.false_ne_true)
          | skip
      have htn : a.toNat = b.toNat := by omega
      have hab2 : a = b := Char.eq_of_val_eq (UInt32.ext htn)
      rw [hab2, ih bs h1 h2]

lemma valLE_total : ∀ a b, (valLE a b || valLE b a) = true := by
  intro a b
  cases a <;> cases b <;> simp only [valLE, valRank, strLE] <;> try rfl
  · rename_i x y
    rcases le_total x y with h | h
    · rw [decide_eq_true h, Bool.true_or]
    · rw [decide_eq_true h, Bool.or_true]
  · rename_i x y
    exact charListLE_total x.data y.data
  · rename_i x1 x2 y1 y2
    by_cases he : x1 = y1
    · rw [if_pos he, if_pos he.symm]
      subst he
      exact charListLE_total x2.data y2.data
    · rw [if_neg he, if_neg (fun h => he h.symm)]
      exact charListLE_total x1.data y1.data

lemma valLE_antisymm : ∀ a b, valLE a b = true → valLE b a = true → a = b := by
  intro a b
  cases a <;> cases b <;> simp only [valLE, valRank, strLE] <;> intro h1 h2 <;>
    first
      | rfl
      | trivial
      | (exact absurd h1 (by decide))
      | (exact absurd h2 (by decide))
      | skip
  · rename_i x y
    simp only [decide_eq_true_eq] at h1 h2
    rw [le_antisymm h1 h2]
  · rename_i x y
    have hd : x.data = y.data := charListLE_antisymm _ _ h1 h2
    cases x; cases y
    simp_all
  · rename_i x1 x2 y1 y2
    by_cases he : x1 = y1
    · subst he
      rw [if_pos rfl] at h1 h2
      have hd : x2.data = y2.data := charListLE_antisymm _ _ h1 h2
      cases x2; cases y2
      simp_all
    · rw [if_neg he] at h1
      rw [if_neg (fun h => he h.symm)] at h2
      exact absurd (charListLE_antisymm _ _ h1 h2) (by
        intro hd
        apply he
        cases x1; cases y1
        simp_all)

lemma valLE_trans : ∀ a b c, valLE a b = true → valLE b c = true → valLE a c = true := by
  intro a b c
  cases a <;> cases b <;> cases c <;> simp only [valLE, valRank, strLE] <;>
    intro h1 h2 <;>
    first
      | rfl
      | trivial
      | (exact absurd h1 (by decide))
      | (exact absurd h2 (by decide))
      | skip
  · rename_i x y z
    simp only [decide_eq_true_eq] at h1 h2 ⊢
    exact le_trans h1 h2
  · rename_i x y z
    exact charListLE_trans _ _ _ h1 h2
  · rename_i x1 x2 y1 y2 z1 z2
    by_cases e1 : x1 = y1 <;> by_cases e2 : y1 = z1
    · subst e1; subst e2
      rw [if_pos rfl] at h1 h2 ⊢
      exact charListLE_trans _ _ _ h1 h2
    · subst e1
      rw [if_pos rfl] at h1
      rw [if_neg e2] at h2
      rw [if_neg e2]
      exact h2
    · subst e2
      rw [if_neg e1] at h1
      rw [if_pos rfl] at h2
      rw [if_neg e1]
      exact h1
    · rw [if_neg e1] at h1
      rw [if_neg e2] at h2
      by_cases e3 : x1 = z1
      · subst e3
        exfalso
        apply e1
        have hd : x1.data = y1.data := charListLE_antisymm _ _ h1 h2
        cases x1; cases y1
        simp_all
      · rw [if_neg e3]
        exact charListLE_trans _ _ _ h1 h2

lemma pairLE_total : ∀ a b : Val × Val, (pairLE a b || pairLE b a) = true := by
  intro a b
  rw [pairLE, pairLE]
  by_cases he : a.1 = b.1
  · rw [if_pos he, if_pos he.symm]
    exact valLE_total a.2 b.2
  · rw [if_neg he, if_neg (fun h => he h.symm)]
    exact valLE_total a.1 b.1

lemma pairLE_trans : ∀ a b c : Val × Val, pairLE a b = true → pairLE b c = true →
    pairLE a c = true := by
  intro a b c h1 h2
  rw [pairLE] at h1 h2 ⊢
  by_cases e1 : a.1 = b.1 <;> by_cases e2 : b.1 = c.1
  · rw [if_pos e1] at h1
    rw [if_pos e2] at h2
    rw [if_pos (e1.trans e2)]
    exact valLE_trans _ _ _ h1 h2
  · rw [if_pos e1] at h1
    rw [if_neg e2] at h2
    rw [if_neg (fun h => e2 (e1.symm.trans h)), e1]
    exact h2
  · rw [if_neg e1] at h1
    rw [if_pos e2] at h2
    rw [if_neg (fun h => e1 (h.trans e2.symm)), ← e2]
    exact h1
  · rw [if_neg e1] at h1
    rw [if_neg e2] at h2
    by_cases e3 : a.1 = c.1
    · exfalso
      apply e1
      rw [← e3] at h2
      exact valLE_antisymm _ _ h1 h2
    · rw [if_neg e3]
      exact valLE_trans _ _ _ h1 h2

lemma filter_flatMap {α β : Type} (l : List α) (f : α → List β) (p : β → Bool) :
    (l.flatMap f).filter p = l.flatMap (fun a => (f a).filter p) := by
  induction l with
  | nil => rfl
  | cons x xs ih =>
    rw [List.flatMap_cons, List.filter_append, ih, List.flatMap_cons]

lemma flatMap_nil_of {α β : Type} (l : List α) (f : α → List β)
    (h : ∀ a ∈ l, f a = []) : l.flatMap f = [] := by
  induction l with
  | nil => rfl
  | cons x xs ih =>
    rw [List.flatMap_cons, h x (List.mem_cons_self _ _), List.nil_append,
      ih (fun a ha => h a (List.mem_cons_of_mem _ ha))]

lemma flatMap_eq_of_single {α β : Type} (l : List α) (m : α) (hm : m ∈ l)
    (hnd : l.Nodup) (f : α → List β) (hz : ∀ a ∈ l, a ≠ m → f a = []) :
    l.flatMap f = f m := by
  induction l with
  | nil => cases hm
  | cons a as ih =>
    rw [List.flatMap_cons]
    rcases List.mem_cons.mp hm with rfl | hmem
    · have hrest : as.flatMap f = [] := flatMap_nil_of _ _ (fun b hb =>
        hz b (List.mem_cons_of_mem _ hb)
          (fun he => (List.nodup_cons.mp hnd).1 (he ▸ hb)))
      rw [hrest, List.append_nil]
    · have hne : a ≠ m := fun he => (List.nodup_cons.mp hnd).1 (he ▸ hmem)
      rw [hz a (List.mem_cons_self _ _) hne, List.nil_append]
      exact ih hmem (List.nodup_cons.mp hnd).2
        (fun b hb hbne => hz b (List.mem_cons_of_mem _ hb) hbne)

lemma meltIdCols_eq (cols : List String) (hp : "provider_id" ∈ cols)
    (hy : "snapshot_year" ∈ cols) (hl : "snapshot_label" ∈ cols) :
    meltIdCols cols = ["provider_id", "snapshot_year", "snapshot_label"] := by
  have e1 : cols.contains "provider_id" = true := (contains_iff_mem _ _).mpr hp
  have e2 : cols.contains "snapshot_year" = true := (contains_iff_mem _ _).mpr hy
  have e3 : cols.contains "snapshot_label" = true := (contains_iff_mem _ _).mpr hl
  rw [meltIdCols]
  simp [List.filter_cons, e1, e2, e3, hp, hy, hl]

lemma meltRow_eq (cols : List String) (m : String) (r : List Val)
    (hid : meltIdCols cols = ["provider_id", "snapshot_year", "snapshot_label"]) :
    meltRow cols m r = [colVal cols r "provider_id", colVal cols r "snapshot_year",
      colVal cols r "snapshot_label", Val.str m, colVal cols r m] := by
  rw [meltRow, hid]
  rfl

lemma meltCols_eq (cols : List String)
    (hid : meltIdCols cols = ["provider_id", "snapshot_year", "snapshot_label"]) :
    meltColsOf cols = ["provider_id", "snapshot_year", "snapshot_label",
      "measure", "score"] := by
  rw [meltColsOf, hid]
  rfl

lemma trendKeyOf_meltRow (cols : List String) (m : String) (r : List Val)
    (hid : meltIdCols cols = ["provider_id", "snapshot_year", "snapshot_label"]) :
    trendKeyOf cols (meltRow cols m r) =
      (Val.str m, colVal cols r "snapshot_year") := by
  rw [trendKeyOf, meltCols_eq cols hid, meltRow_eq cols m r hid]
  rfl

lemma colVal_meltRow_provider (cols : List String) (m : String) (r : List Val)
    (hid : meltIdCols cols = ["provider_id", "snapshot_year", "snapshot_label"]) :
    colVal (meltColsOf cols) (meltRow cols m r) "provider_id" =
      colVal cols r "provider_id" := by
  rw [meltCols_eq cols hid, meltRow_eq cols m r hid]
  rfl

lemma colVal_meltRow_score (cols : List String) (m : String) (r : List Val)
    (hid : meltIdCols cols = ["provider_id", "snapshot_year", "snapshot_label"]) :
    colVal (meltColsOf cols) (meltRow cols m r) "score" = colVal cols r m := by
  rw [meltCols_eq cols hid, meltRow_eq cols m r hid]
  rfl

lemma beq_comm_val (a b : Val) : (a == b) = (b == a) := by
  by_cases h : a = b
  · subst h
    rfl
  · rw [beq_eq_false_iff_ne.mpr h, beq_eq_false_iff_ne.mpr (Ne.symm h)]

/-- A melted row contains a missing value iff its score does, when the
three id cells are non-missing. -/
lemma meltRow_contains_na (cols : List String) (m : String) (r : List Val)
    (hid : meltIdCols cols = ["provider_id", "snapshot_year", "snapshot_label"])
    (hpv : colVal cols r "provider_id" ≠ Val.na)
    (hyv : colVal cols r "snapshot_year" ≠ Val.na)
    (hlv : colVal cols r "snapshot_label" ≠ Val.na) :
    ((meltRow cols m r).contains Val.na) = (colVal cols r m == Val.na) := by
  rw [meltRow_eq cols m r hid]
  rw [List.contains_cons, List.contains_cons, List.contains_cons, List.contains_cons,
    List.contains_cons]
  rw [beq_eq_false_iff_ne.mpr (Ne.symm hpv), beq_eq_false_iff_ne.mpr (Ne.symm hyv),
    beq_eq_false_iff_ne.mpr (Ne.symm hlv),
    beq_eq_false_iff_ne.mpr (fun h => Val.noConfusion h)]
  rw [beq_comm_val]
  simp [List.contains]

/-- The melted rows of the `(measure m, year y)` group are exactly the
melts of the wide rows with year `y` and a non-missing `m` score: melting
preserves input order within one value column, other value columns never
match the group's measure, and `.dropna()` reduces to the score check
when the id cells are non-missing. -/
lemma trendGroup_eq (q : Table) (m : String) (y : Val)
    (hnd : q.cols.Nodup)
    (hp : "provider_id" ∈ q.cols) (hy : "snapshot_year" ∈ q.cols)
    (hl : "snapshot_label" ∈ q.cols)
    (hids : ∀ r ∈ q.rows, colVal q.cols r "provider_id" ≠ Val.na ∧
      colVal q.cols r "snapshot_label" ≠ Val.na ∧
      colVal q.cols r "snapshot_year" ≠ Val.na)
    (hm : m ∈ meltValueCols q.cols) :
    trendGroup q (Val.str m, y) = (specTrendRows q m y).map (meltRow q.cols m) := by
  have hid := meltIdCols_eq q.cols hp hy hl
  rw [trendGroup, droppedMelt, meltAll, List.filter_filter, filter_flatMap]
  rw [flatMap_eq_of_single _ m hm (List.Nodup.filter _ hnd) _ ?_]
  · rw [List.filter_map, specTrendRows]
    refine congrArg _ (List.filter_congr ?_)
    intro r hr
    obtain ⟨hpv, hlv, hyv⟩ := hids r hr
    show (trendKeyOf q.cols (meltRow q.cols m r) == (Val.str m, y) &&
        !((meltRow q.cols m r).contains Val.na)) = _
    rw [trendKeyOf_meltRow q.cols m r hid, meltRow_eq q.cols m r hid]
    have hkey : ((Val.str m, colVal q.cols r "snapshot_year") == (Val.str m, y)) =
        (colVal q.cols r "snapshot_year" == y) := by
      by_cases hyy : colVal q.cols r "snapshot_year" = y
      · rw [hyy, beq_self_eq_true, beq_self_eq_true]
      · rw [beq_eq_false_iff_ne.mpr hyy,
          beq_eq_false_iff_ne.mpr (fun hc => hyy (congrArg Prod.snd hc))]
    rw [hkey, ← meltRow_eq q.cols m r hid, meltRow_contains_na q.cols m r hid hpv hyv hlv]
  · intro m₁ hm₁ hne
    rw [List.filter_map]
    rw [List.filter_eq_nil_iff.mpr ?_, List.map_nil]
    intro r hr
    show ¬(trendKeyOf q.cols (meltRow q.cols m₁ r) == (Val.str m, y) &&
        !((meltRow q.cols m₁ r).contains Val.na)) = true
    rw [trendKeyOf_meltRow q.cols m₁ r hid]
    have hfst : ((Val.str m₁, colVal q.cols r "snapshot_year") == (Val.str m, y)) = false := by
      apply beq_eq_false_iff_ne.mpr
      intro hc
      exact hne (Val.str.inj (congrArg Prod.fst hc))
    rw [hfst, Bool.false_and]
    simp

lemma allNums_map_eq {γ : Type} (L : List γ) (f : γ → Val)
    (h : ∀ r ∈ L, ∃ x, f r = Val.num x) :
    allNums (L.map f) = some (L.filterMap (fun r => asNum (f r))) := by
  induction L with
  | nil => rfl
  | cons r rs ih =>
    obtain ⟨x, hx⟩ := h r (List.mem_cons_self _ _)
    have ihh := ih (fun a ha => h a (List.mem_cons_of_mem _ ha))
    rw [List.map_cons, allNums, List.mapM_cons]
    rw [allNums] at ihh
    rw [List.filterMap_cons, hx]
    simp only [asNum, Option.pure_def, Option.bind_eq_bind, Option.some_bind, ihh]

/-- One aggregated trend row, characterized by the claim-side direct
formulas over the wide table. -/
lemma trendAggRow_eq (q : Table) (m : String) (y : Val)
    (hnd : q.cols.Nodup)
    (hp : "provider_id" ∈ q.cols) (hy : "snapshot_year" ∈ q.cols)
    (hl : "snapshot_label" ∈ q.cols)
    (hids : ∀ r ∈ q.rows, colVal q.cols r "provider_id" ≠ Val.na ∧
      colVal q.cols r "snapshot_label" ≠ Val.na ∧
      colVal q.cols r "snapshot_year" ≠ Val.na)
    (hcells : ∀ r ∈ q.rows, ∀ m₁ ∈ meltValueCols q.cols,
      isNumOrNa (colVal q.cols r m₁) = true)
    (hm : m ∈ meltValueCols q.cols) :
    trendAggRow q (Val.str m, y) =
      [Val.str m, y, Val.num ((specFacilities q m y : ℕ) : ℚ),
       Val.num (listMean (specScoresQ q m y)),
       Val.num (listMedian (specScoresQ q m y))] := by
  have hid := meltIdCols_eq q.cols hp hy hl
  have hg := trendGroup_eq q m y hnd hp hy hl hids hm
  have hprov : ∀ r, colVal (meltColsOf q.cols) (meltRow q.cols m r) "provider_id" =
      colVal q.cols r "provider_id" := fun r => colVal_meltRow_provider q.cols m r hid
  have hscore : ∀ r, colVal (meltColsOf q.cols) (meltRow q.cols m r) "score" =
      colVal q.cols r m := fun r => colVal_meltRow_score q.cols m r hid
  have hnums : ∀ r ∈ specTrendRows q m y, ∃ x, colVal q.cols r m = Val.num x := by
    intro r hr
    have hmem := (List.mem_filter.mp hr).1
    have hpred := (List.mem_filter.mp hr).2
    have hno : ¬(colVal q.cols r m == Val.na) = true := by
      intro hcon
      rw [Bool.and_eq_true] at hpred
      rw [hcon] at hpred
      simp at hpred
    have hshape := hcells r hmem m hm
    cases hcell : colVal q.cols r m with
    | na => rw [hcell] at hno; simp at hno
    | num x => exact ⟨x, rfl⟩
    | str s => rw [hcell] at hshape; simp [isNumOrNa] at hshape
    | pair a b => rw [hcell] at hshape; simp [isNumOrNa] at hshape
  rw [trendAggRow, hg, List.map_map, List.map_map]
  simp only [Function.comp_def, hprov, hscore]
  rw [allNums_map_eq _ _ hnums]
  rfl

/-- Claim C6: trend aggregation reshapes the wide table to long form,
drops rows with missing score, groups by `(measure, snapshot_year)` and
reports, per group, the count of distinct providers, the arithmetic mean
and the median of the scores, with the output sorted ascending by the
group key.  Stated as soundness (every output row carries exactly the
direct per-group statistics computed on the wide table), completeness
(every non-empty group produces its row) and sortedness. -/
theorem c6_trend_aggregation (q : Table)
    (hnd : q.cols.Nodup)
    (hp : "provider_id" ∈ q.cols) (hy : "snapshot_year" ∈ q.cols)
    (hl : "snapshot_label" ∈ q.cols)
    (hids : ∀ r ∈ q.rows, colVal q.cols r "provider_id" ≠ Val.na ∧
      colVal q.cols r "snapshot_label" ≠ Val.na ∧
      colVal q.cols r "snapshot_year" ≠ Val.na)
    (hcells : ∀ r ∈ q.rows, ∀ m₁ ∈ meltValueCols q.cols,
      isNumOrNa (colVal q.cols r m₁) = true) :
    (∀ row ∈ (summarize_trends q).rows, ∃ m y, m ∈ meltValueCols q.cols ∧
      specTrendRows q m y ≠ [] ∧
      row = [Val.str m, y, Val.num ((specFacilities q m y : ℕ) : ℚ),
        Val.num (listMean (specScoresQ q m y)),
        Val.num (listMedian (specScoresQ q m y))]) ∧
    (∀ m ∈ meltValueCols q.cols, ∀ y, specTrendRows q m y ≠ [] →
      [Val.str m, y, Val.num ((specFacilities q m y : ℕ) : ℚ),
        Val.num (listMean (specScoresQ q m y)),
        Val.num (listMedian (specScoresQ q m y))] ∈ (summarize_trends q).rows) ∧
    ((summarize_trends q).rows.map
      (fun row => (row.getD 0 Val.na, row.getD 1 Val.na))).Pairwise
        (fun a b => pairLE a b = true) := by
  have hid := meltIdCols_eq q.cols hp hy hl
  by_cases hrows : q.rows.isEmpty = true
  · have hempty : q.rows = [] := List.isEmpty_iff.mp hrows
    have hst : summarize_trends q = q := by
      rw [summarize_trends, if_pos (by rw [hrows, Bool.true_or])]
    refine ⟨?_, ?_, ?_⟩
    · intro row hrow
      rw [hst, hempty] at hrow
      cases hrow
    · intro m hm y hne
      exact absurd (by rw [specTrendRows, hempty]; rfl) hne
    · rw [hst, hempty]
      simp
  · have hcne : q.cols.isEmpty = false := by
      cases hc : q.cols with
      | nil => rw [hc] at hp; cases hp
      | cons a as => rfl
    have hrne : q.rows.isEmpty = false := by
      rw [Bool.not_eq_true] at hrows
      exact hrows
    have hst : summarize_trends q =
        ⟨["measure", "snapshot_year", "facilities", "avg_score", "median_score"],
         (trendKeys q).map (trendAggRow q)⟩ := by
      rw [summarize_trends, if_neg (by rw [hrne, hcne]; simp)]
    refine ⟨?_, ?_, ?_⟩
    · intro row hrow
      rw [hst] at hrow
      rcases List.mem_map.mp hrow with ⟨k, hk, rfl⟩
      rw [trendKeys, mem_insSort, List.mem_dedup] at hk
      rcases List.mem_map.mp hk with ⟨x, hx, hkey⟩
      rw [droppedMelt, List.mem_filter] at hx
      obtain ⟨hmelt, hnona⟩ := hx
      rw [meltAll] at hmelt
      rcases List.mem_flatMap.mp hmelt with ⟨m, hmv, hxm⟩
      rcases List.mem_map.mp hxm with ⟨r, hr, rfl⟩
      rw [trendKeyOf_meltRow q.cols m r hid] at hkey
      obtain ⟨hpv, hlv, hyv⟩ := hids r hr
      have hsv : colVal q.cols r m ≠ Val.na := by
        intro he
        rw [meltRow_contains_na q.cols m r hid hpv hyv hlv, he,
          beq_self_eq_true] at hnona
        simp at hnona
      have hrspec : r ∈ specTrendRows q m (colVal q.cols r "snapshot_year") := by
        rw [specTrendRows, List.mem_filter]
        refine ⟨hr, ?_⟩
        rw [beq_self_eq_true, beq_eq_false_iff_ne.mpr hsv]
        rfl
      subst hkey
      exact ⟨m, colVal q.cols r "snapshot_year", hmv, List.ne_nil_of_mem hrspec,
        trendAggRow_eq q m _ hnd hp hy hl hids hcells hmv⟩
    · intro m hm y hne
      rw [hst]
      obtain ⟨r₀, hr₀⟩ := List.exists_mem_of_ne_nil _ hne
      have hr₀q : r₀ ∈ q.rows := (List.mem_filter.mp hr₀).1
      have hpred := (List.mem_filter.mp hr₀).2
      rw [Bool.and_eq_true] at hpred
      obtain ⟨hy0, hs0⟩ := hpred
      have hyy : colVal q.cols r₀ "snapshot_year" = y := eq_of_beq hy0
      have hsv : colVal q.cols r₀ m ≠ Val.na := by
        intro he
        rw [he, beq_self_eq_true] at hs0
        simp at hs0
      obtain ⟨hpv, hlv, hyv⟩ := hids r₀ hr₀q
      have hmelted : meltRow q.cols m r₀ ∈ droppedMelt q := by
        rw [droppedMelt, List.mem_filter]
        refine ⟨?_, ?_⟩
        · rw [meltAll]
          exact List.mem_flatMap.mpr ⟨m, hm, List.mem_map_of_mem _ hr₀q⟩
        · rw [meltRow_contains_na q.cols m r₀ hid hpv hyv hlv,
            beq_eq_false_iff_ne.mpr hsv]
          rfl
      have hkmem : (Val.str m, y) ∈ trendKeys q := by
        rw [trendKeys, mem_insSort, List.mem_dedup]
        refine List.mem_map.mpr ⟨meltRow q.cols m r₀, hmelted, ?_⟩
        rw [trendKeyOf_meltRow q.cols m r₀ hid, hyy]
      exact List.mem_map.mpr ⟨(Val.str m, y), hkmem,
        trendAggRow_eq q m y hnd hp hy hl hids hcells hm⟩
    · rw [hst]
      have hmap : (((trendKeys q).map (trendAggRow q)).map
          (fun row => (row.getD 0 Val.na, row.getD 1 Val.na))) = trendKeys q := by
        rw [List.map_map]
        have hpt : ∀ k ∈ trendKeys q,
            ((fun row => (row.getD 0 Val.na, row.getD 1 Val.na)) ∘ trendAggRow q) k =
              id k := by
          intro k hk
          show ((trendAggRow q k).getD 0 Val.na, (trendAggRow q k).getD 1 Val.na) = k
          have h0 : (trendAggRow q k).getD 0 Val.na = k.1 := rfl
          have h1 : (trendAggRow q k).getD 1 Val.na = k.2 := rfl
          rw [h0, h1]
        rw [List.map_congr_left hpt, List.map_id]
      rw [hmap]
      exact insSort_pairwise pairLE pairLE_trans pairLE_total _

theorem c6_witness :
    (c6wtab.cols.Nodup ∧ "provider_id" ∈ c6wtab.cols ∧
      "snapshot_year" ∈ c6wtab.cols ∧ "snapshot_label" ∈ c6wtab.cols ∧
      (∀ r ∈ c6wtab.rows, colVal c6wtab.cols r "provider_id" ≠ Val.na ∧
        colVal c6wtab.cols r "snapshot_label" ≠ Val.na ∧
        colVal c6wtab.cols r "snapshot_year" ≠ Val.na) ∧
      (∀ r ∈ c6wtab.rows, ∀ m₁ ∈ meltValueCols c6wtab.cols,
        isNumOrNa (colVal c6wtab.cols r m₁) = true)) ∧
    (∀ m ∈ meltValueCols c6wtab.cols, ∀ y, specTrendRows c6wtab m y ≠ [] →
      [Val.str m, y, Val.num ((specFacilities c6wtab m y : ℕ) : ℚ),
        Val.num (listMean (specScoresQ c6wtab m y)),
        Val.num (listMedian (specScoresQ c6wtab m y))] ∈
          (summarize_trends c6wtab).rows) ∧
    summarize_trends c6wtab =
      ⟨["measure", "snapshot_year", "facilities", "avg_score", "median_score"],
       [[Val.str "Pressure Ulcer Rate", Val.num 2020, Val.num 2, Val.num 3,
         Val.num 3]]⟩ :=
  ⟨⟨by decide, by decide, by decide, by decide, by decide, by decide⟩,
    (c6_trend_aggregation c6wtab (by decide) (by decide) (by decide) (by decide)
      (by decide) (by decide)).2.1,
    by decide⟩

lemma mem_setColName_self (cols : List String) (c : String) : c ∈ setColName cols c := by
  rw [setColName]
  split
  · exact (contains_iff_mem _ _).mp (by assumption)
  · exact List.mem_append_right _ (List.mem_singleton_self _)

lemma mem_setColName_of_mem (cols : List String) (c d : String) (h : d ∈ cols) :
    d ∈ setColName cols c := by
  rw [setColName]
  split
  · exact h
  · exact List.mem_append_left _ h

lemma setColName_eq_of_mem (cols : List String) (c : String) (h : c ∈ cols) :
    setColName cols c = cols := by
  rw [setColName, if_pos ((contains_iff_mem _ _).mpr h)]

lemma setColName_filter (cols : List String) (c : String) (p : String → Bool)
    (hp : p c = false) : (setColName cols c).filter p = cols.filter p := by
  rw [setColName]
  split
  · rfl
  · rw [List.filter_append]
    simp [hp]

lemma countyColsOf_augCols (cols : List String) :
    countyColsOf (augCols cols) = countyColsOf cols := by
  rw [countyColsOf, augCols, setColName_filter _ _ _ (by decide),
    setColName_filter _ _ _ (by decide), setColName_filter _ _ _ (by decide)]
  rfl

lemma stateColsOf_augCols (cols : List String) :
    stateColsOf (augCols cols) = stateColsOf cols := by
  rw [stateColsOf, augCols, setColName_filter _ _ _ (by decide),
    setColName_filter _ _ _ (by decide), setColName_filter _ _ _ (by decide)]
  rfl

lemma mem_augCols_aux (cols : List String) :
    "county_std" ∈ augCols cols ∧ "state_std" ∈ augCols cols ∧
      "county_state_key" ∈ augCols cols := by
  refine ⟨?_, ?_, mem_setColName_self _ _⟩
  · exact mem_setColName_of_mem _ _ _
      (mem_setColName_of_mem _ _ _ (mem_setColName_self _ _))
  · exact mem_setColName_of_mem _ _ _ (mem_setColName_self _ _)

lemma augCols_idem (cols : List String) : augCols (augCols cols) = augCols cols := by
  obtain ⟨h1, h2, h3⟩ := mem_augCols_aux cols
  rw [augCols, setColName_eq_of_mem _ _ h1]
  rw [setColName_eq_of_mem _ _ h2, setColName_eq_of_mem _ _ h3]

lemma length_augRow (cols ccols scols : List String) (r : List Val)
    (h : r.length = cols.length) :
    (augRow cols ccols scols r).length = (augCols cols).length := by
  have l1 := length_setCell cols r "county_std"
    (Val.str (rowKeyCS cols ccols scols r).1) h
  have l2 := length_setCell (setColName cols "county_std")
    (setCell cols r "county_std" (Val.str (rowKeyCS cols ccols scols r).1))
    "state_std" (Val.str (rowKeyCS cols ccols scols r).2) l1
  have l3 := length_setCell (setColName (setColName cols "county_std") "state_std")
    (setCell (setColName cols "county_std")
      (setCell cols r "county_std" (Val.str (rowKeyCS cols ccols scols r).1))
      "state_std" (Val.str (rowKeyCS cols ccols scols r).2))
    "county_state_key"
    (Val.pair (rowKeyCS cols ccols scols r).1 (rowKeyCS cols ccols scols r).2) l2
  exact l3

lemma filter_to_counties_WF (t : Table) (cs : List (Val × Val)) (h : t.WF) :
    (filter_to_counties t cs).WF := by
  rw [filter_to_counties]
  split
  · exact h
  · intro r hr
    simp only [List.mem_filterMap] at hr
    rcases hr with ⟨a, ha, hfa⟩
    split at hfa
    · cases Option.some.inj hfa
      exact length_augRow _ _ _ _ (h a ha)
    · exact absurd hfa (by simp)

lemma colVal_augRow_ne (cols ccols scols : List String) (r : List Val) (d : String)
    (h : r.length = cols.length)
    (h1 : d ≠ "county_std") (h2 : d ≠ "state_std") (h3 : d ≠ "county_state_key") :
    colVal (augCols cols) (augRow cols ccols scols r) d = colVal cols r d := by
  have l1 := length_setCell cols r "county_std"
    (Val.str (rowKeyCS cols ccols scols r).1) h
  have l2 := length_setCell (setColName cols "county_std")
    (setCell cols r "county_std" (Val.str (rowKeyCS cols ccols scols r).1))
    "state_std" (Val.str (rowKeyCS cols ccols scols r).2) l1
  simp only [augRow, augCols]
  rw [colVal_setCell_ne _ _ _ _ _ l2 h3, colVal_setCell_ne _ _ _ _ _ l1 h2,
    colVal_setCell_ne _ _ _ _ _ h h1]

lemma colVal_augRow_aux (cols ccols scols : List String) (r : List Val)
    (h : r.length = cols.length) :
    colVal (augCols cols) (augRow cols ccols scols r) "county_std" =
      Val.str (rowKeyCS cols ccols scols r).1 ∧
    colVal (augCols cols) (augRow cols ccols scols r) "state_std" =
      Val.str (rowKeyCS cols ccols scols r).2 ∧
    colVal (augCols cols) (augRow cols ccols scols r) "county_state_key" =
      Val.pair (rowKeyCS cols ccols scols r).1 (rowKeyCS cols ccols scols r).2 := by
  have l1 := length_setCell cols r "county_std"
    (Val.str (rowKeyCS cols ccols scols r).1) h
  have l2 := length_setCell (setColName cols "county_std")
    (setCell cols r "county_std" (Val.str (rowKeyCS cols ccols scols r).1))
    "state_std" (Val.str (rowKeyCS cols ccols scols r).2) l1
  refine ⟨?_, ?_, ?_⟩
  · simp only [augRow, augCols]
    rw [colVal_setCell_ne _ _ _ _ _ l2 (by decide),
      colVal_setCell_ne _ _ _ _ _ l1 (by decide),
      colVal_setCell_self _ _ _ _ h]
  · simp only [augRow, augCols]
    rw [colVal_setCell_ne _ _ _ _ _ l2 (by decide),
      colVal_setCell_self _ _ _ _ l1]
  · simp only [augRow, augCols]
    rw [colVal_setCell_self _ _ _ _ l2]

lemma coalesce_congr (cols1 cols2 : List String) (r1 r2 : List Val) (l : List String)
    (h : ∀ c ∈ l, colVal cols1 r1 c = colVal cols2 r2 c) :
    coalesce cols1 r1 l = coalesce cols2 r2 l := by
  induction l with
  | nil => rfl
  | cons c cs ih =>
    rw [coalesce, coalesce, h c (List.mem_cons_self _ _)]
    have ihh := ih (fun d hd => h d (List.mem_cons_of_mem _ hd))
    cases colVal cols2 r2 c <;> simp [ihh]

lemma countyColsOf_not_aux (cols : List String) :
    ∀ c ∈ countyColsOf cols,
      c ≠ "county_std" ∧ c ≠ "state_std" ∧ c ≠ "county_state_key" := by
  intro c hc
  have hpred := (List.mem_filter.mp hc).2
  refine ⟨?_, ?_, ?_⟩ <;> rintro rfl <;> revert hpred <;> decide

lemma stateColsOf_not_aux (cols : List String) :
    ∀ c ∈ stateColsOf cols,
      c ≠ "county_std" ∧ c ≠ "state_std" ∧ c ≠ "county_state_key" := by
  intro c hc
  have hpred := (List.mem_filter.mp hc).2
  refine ⟨?_, ?_, ?_⟩ <;> rintro rfl <;> revert hpred <;> decide

/-- Re-normalizing an augmented row recomputes the same key: the
augmentation never touches the county/state source columns. -/
lemma rowKeyCS_augRow (cols : List String) (r : List Val) (h : r.length = cols.length) :
    rowKeyCS (augCols cols) (countyColsOf cols) (stateColsOf cols)
        (augRow cols (countyColsOf cols) (stateColsOf cols) r) =
      rowKeyCS cols (countyColsOf cols) (stateColsOf cols) r := by
  rw [rowKeyCS, rowKeyCS]
  have hc : coalesce (augCols cols) (augRow cols (countyColsOf cols) (stateColsOf cols) r)
      (countyColsOf cols) = coalesce cols r (countyColsOf cols) := by
    apply coalesce_congr
    intro c hcmem
    obtain ⟨n1, n2, n3⟩ := countyColsOf_not_aux cols c hcmem
    exact colVal_augRow_ne _ _ _ _ _ h n1 n2 n3
  have hs : coalesce (augCols cols) (augRow cols (countyColsOf cols) (stateColsOf cols) r)
      (stateColsOf cols) = coalesce cols r (stateColsOf cols) := by
    apply coalesce_congr
    intro c hcmem
    obtain ⟨n1, n2, n3⟩ := stateColsOf_not_aux cols c hcmem
    exact colVal_augRow_ne _ _ _ _ _ h n1 n2 n3
  rw [hc, hs]

lemma setCell_eq_self (cols : List String) (r : List Val) (c : String) (v : Val)
    (hc : c ∈ cols) (h : r.length = cols.length) (hv : colVal cols r c = v) :
    setCell cols r c v = r := by
  rw [setCell, if_pos ((contains_iff_mem _ _).mpr hc)]
  have hidx : cols.indexOf c < r.length := by
    rw [h]
    exact List.indexOf_lt_length.mpr hc
  rw [colVal, List.getD_eq_getElem?_getD, List.getElem?_eq_getElem hidx] at hv
  simp only [Option.getD_some] at hv
  apply List.ext_getElem?
  intro i
  by_cases hi : cols.indexOf c = i
  · subst hi
    rw [List.getElem?_set_self hidx, List.getElem?_eq_getElem hidx, hv]
  · rw [List.getElem?_set_ne hi]

lemma filterMap_id_of {α : Type} (l : List α) (f : α → Option α)
    (h : ∀ x ∈ l, f x = some x) : l.filterMap f = l := by
  induction l with
  | nil => rfl
  | cons x xs ih =>
    rw [List.filterMap_cons, h x (List.mem_cons_self _ _),
      ih (fun a ha => h a (List.mem_cons_of_mem _ ha))]

/-- Augmenting an already augmented row is the identity: the three
synthesized columns are overwritten in place with the same values. -/
lemma augRow_idem (cols : List String) (r : List Val) (h : r.length = cols.length) :
    augRow (augCols cols) (countyColsOf cols) (stateColsOf cols)
        (augRow cols (countyColsOf cols) (stateColsOf cols) r) =
      augRow cols (countyColsOf cols) (stateColsOf cols) r := by
  obtain ⟨m1, m2, m3⟩ := mem_augCols_aux cols
  obtain ⟨v1, v2, v3⟩ := colVal_augRow_aux cols (countyColsOf cols) (stateColsOf cols) r h
  have hlen : (augRow cols (countyColsOf cols) (stateColsOf cols) r).length =
      (augCols cols).length := length_augRow _ _ _ _ h
  have hkey := rowKeyCS_augRow cols r h
  rw [augRow]
  simp only [hkey]
  rw [setColName_eq_of_mem _ _ m1, setColName_eq_of_mem _ _ m2]
  rw [setCell_eq_self _ _ _ _ m1 hlen v1]
  rw [setCell_eq_self _ _ _ _ m2 hlen v2]
  rw [setCell_eq_self _ _ _ _ m3 hlen v3]

/-- Claim C8: the Geographic Filter is idempotent — filtering an
already-filtered table with the same allow-list returns it unchanged
(same columns, same rows, same values). -/
theorem c8_filter_idempotent (t : Table) (cs : List (Val × Val)) (hwf : t.WF) :
    filter_to_counties (filter_to_counties t cs) cs = filter_to_counties t cs := by
  by_cases hb : ((countyColsOf t.cols).isEmpty || (stateColsOf t.cols).isEmpty) = true
  · have h1 : filter_to_counties t cs = t := by
      rw [filter_to_counties, if_pos hb]
    rw [h1, h1]
  · have h1 : filter_to_counties t cs =
        { cols := augCols t.cols,
          rows := t.rows.filterMap (fun r =>
            if (normAllowed cs).contains
                (rowKeyCS t.cols (countyColsOf t.cols) (stateColsOf t.cols) r)
            then some (augRow t.cols (countyColsOf t.cols) (stateColsOf t.cols) r)
            else none) } := by
      rw [filter_to_counties, if_neg hb]
    rw [h1]
    rw [filter_to_counties]
    simp only [countyColsOf_augCols, stateColsOf_augCols]
    rw [if_neg hb]
    rw [Table.mk.injEq]
    refine ⟨augCols_idem _, ?_⟩
    apply filterMap_id_of
    intro r₂ hr₂
    simp only [List.mem_filterMap] at hr₂
    rcases hr₂ with ⟨r, hr, hfr⟩
    by_cases hk : (normAllowed cs).contains
        (rowKeyCS t.cols (countyColsOf t.cols) (stateColsOf t.cols) r) = true
    · rw [if_pos hk] at hfr
      cases Option.some.inj hfr
      rw [rowKeyCS_augRow t.cols r (hwf r hr), if_pos hk,
        augRow_idem t.cols r (hwf r hr)]
    · rw [if_neg hk] at hfr
      exact absurd hfr (by simp)

theorem c8_witness :
    c8wtab.WF ∧
    filter_to_counties (filter_to_counties c8wtab c8allow) c8allow =
      filter_to_counties c8wtab c8allow :=
  ⟨by decide, c8_filter_idempotent c8wtab c8allow (by decide)⟩

lemma pivotGroup_eq_c4GroupRows (t : Table) (mc pc : String) (k : Val × Val × Val)
    (code : String) : pivotGroup t mc pc k code = c4GroupRows t mc pc k code := by
  rw [pivotGroup, pivotValid, pivotSubset, List.filter_filter, List.filter_filter,
    c4GroupRows]
  apply List.filter_congr
  intro r _
  cases h1 : isMeasureCode (colVal t.cols r mc) <;>
    cases h2 : keyValid (pivotKeyOf t.cols pc r) <;>
    cases h3 : (pivotKeyOf t.cols pc r == k) <;>
    cases h4 : (colVal t.cols r mc == Val.str code) <;>
    simp [h1, h2, h3, h4]

lemma pivotCodes_mem_measureKeys (t : Table) (mc pc sc code : String)
    (h : code ∈ pivotCodes t mc pc sc) : code ∈ measureKeys := by
  rw [pivotCodes] at h
  have h1 : code ∈ pivotCodesAll t mc pc := (List.mem_filter.mp h).1
  rw [pivotCodesAll, mem_insSort, List.mem_dedup] at h1
  rcases List.mem_map.mp h1 with ⟨r, hr, heq⟩
  have hmc : isMeasureCode (colVal t.cols r mc) = true :=
    (List.mem_filter.mp (List.mem_filter.mp hr).1).2
  cases hcell : colVal t.cols r mc with
  | str s =>
    rw [hcell] at hmc heq
    rw [isMeasureCode] at hmc
    rw [pyStr] at heq
    subst heq
    exact (contains_iff_mem _ _).mp hmc
  | na => rw [hcell] at hmc; simp [isMeasureCode] at hmc
  | num q => rw [hcell] at hmc; simp [isMeasureCode] at hmc
  | pair a b => rw [hcell] at hmc; simp [isMeasureCode] at hmc

lemma getD_map_indexOf_map (f : String → String) (g : String → Val) :
    ∀ (codes : List String) (code : String), code ∈ codes →
      (∀ a ∈ codes, ∀ b ∈ codes, f a = f b → a = b) →
      (codes.map g).getD (List.indexOf (f code) (codes.map f)) Val.na = g code := by
  intro codes
  induction codes with
  | nil => simp
  | cons c cs ih =>
    intro code hmem hinj
    by_cases hfc : f code = f c
    · have hcc : code = c :=
        hinj code hmem c (List.mem_cons_self _ _) hfc
      subst hcc
      simp [List.indexOf_cons_self]
    · have hii : List.indexOf (f code) (f c :: cs.map f) =
          (List.indexOf (f code) (cs.map f)) + 1 := by
        rw [List.indexOf_cons_ne _ (fun he => hfc he.symm)]
      have hcode : code ∈ cs := by
        rcases List.mem_cons.mp hmem with rfl | hx
        · exact absurd rfl hfc
        · exact hx
      simp only [List.map_cons, hii]
      rw [List.getD_cons_succ]
      exact ih code hcode (fun a ha b hb =>
        hinj a (List.mem_cons_of_mem _ ha) b (List.mem_cons_of_mem _ hb))

/-- Claim C4: in the pivot output, for a group with more than one source
row, the recorded cell is the first encountered (non-missing, coerced)
score of that group in input order — the `aggfunc="first"` tie-break —
so each cell holds at most one score. -/
theorem c4_first_value_wins (t : Table) (mc pc sc : String)
    (k : Val × Val × Val) (code : String)
    (hm : findMeasureCol t.cols = some mc) (hp : findProviderCol t.cols = some pc)
    (hsc : findScoreCol t.cols = some sc)
    (hcode : code ∈ pivotCodes t mc pc sc)
    (R : List Val) (hR : R ∈ (pivot_measures t).rows)
    (hkey : keyTripleOf (pivot_measures t).cols R = k)
    (hmulti : 1 < (c4GroupRows t mc pc k code).length) :
    colVal (pivot_measures t).cols R (measureLabel code) =
      optToVal ((c4GroupRows t mc pc k code).filterMap
        (fun r => toNumeric (colVal t.cols r sc))).head? := by
  clear hmulti
  simp only [pivot_measures, hm, hp, hsc] at hR hkey ⊢
  rcases List.mem_map.mp hR with ⟨k₁, hk₁, rfl⟩
  rw [keyTripleOf_pivot_row] at hkey
  subst hkey
  have hmemK : code ∈ measureKeys := pivotCodes_mem_measureKeys t mc pc sc code hcode
  have hnot3 : measureLabel code ∉ ["provider_id", "snapshot_year", "snapshot_label"] :=
    (by decide : ∀ x ∈ measureKeys,
      measureLabel x ∉ ["provider_id", "snapshot_year", "snapshot_label"]) code hmemK
  rw [colVal, List.indexOf_append_of_not_mem hnot3]
  have hlen3 : (["provider_id", "snapshot_year", "snapshot_label"] : List String).length = 3 :=
    rfl
  rw [hlen3]
  have hshift : ([k₁.1, k₁.2.1, k₁.2.2] ++ (pivotCodes t mc pc sc).map
      (fun code => optToVal (pivotCell t mc pc sc k₁ code))).getD
        (3 + List.indexOf (measureLabel code)
          ((pivotCodes t mc pc sc).map measureLabel)) Val.na =
      ((pivotCodes t mc pc sc).map
        (fun code => optToVal (pivotCell t mc pc sc k₁ code))).getD
        (List.indexOf (measureLabel code)
          ((pivotCodes t mc pc sc).map measureLabel)) Val.na := by
    rw [List.getD_eq_getElem?_getD, List.getD_eq_getElem?_getD,
      List.getElem?_append_right (by simp)]
    simp
  rw [hshift]
  have hinj : ∀ a ∈ pivotCodes t mc pc sc, ∀ b ∈ pivotCodes t mc pc sc,
      measureLabel a = measureLabel b → a = b := by
    intro a ha b hb
    exact (by decide : ∀ a ∈ measureKeys, ∀ b ∈ measureKeys,
        measureLabel a = measureLabel b → a = b) a
      (pivotCodes_mem_measureKeys t mc pc sc a ha) b
      (pivotCodes_mem_measureKeys t mc pc sc b hb)
  rw [getD_map_indexOf_map measureLabel _ (pivotCodes t mc pc sc) code hcode hinj]
  rw [pivotCell, pivotGroup_eq_c4GroupRows]

theorem c4_witness :
    (1 < (c4GroupRows c4wtab "Measure Code" "CMS Certification Number (CCN)"
        (Val.str "A", Val.num 2020, Val.str "f.csv") "S_038_02_ADJ_RATE").length) ∧
    colVal (pivot_measures c4wtab).cols
        [Val.str "A", Val.num 2020, Val.str "f.csv", Val.num 7] "Pressure Ulcer Rate" =
      optToVal ((c4GroupRows c4wtab "Measure Code" "CMS Certification Number (CCN)"
        (Val.str "A", Val.num 2020, Val.str "f.csv") "S_038_02_ADJ_RATE").filterMap
          (fun r => toNumeric (colVal c4wtab.cols r "Score"))).head? :=
  ⟨by decide,
    by
      have h := c4_first_value_wins c4wtab "Measure Code"
        "CMS Certification Number (CCN)" "Score"
        (Val.str "A", Val.num 2020, Val.str "f.csv") "S_038_02_ADJ_RATE"
        (by decide) (by decide) (by decide) (by decide)
        [Val.str "A", Val.num 2020, Val.str "f.csv", Val.num 7]
        (by decide) (by decide) (by decide)
      simpa using h⟩

/-- The facility output is pairwise distinct on its deduplication key
`(provider_id, snapshot_year)`. -/
lemma facility_key_pairwise (t : Table) (pc2 : String)
    (hl : (buildColMap t.cols).lookup "provider_id" = some pc2) :
    (build_facility_table t).rows.Pairwise (fun a b =>
      (colVal (build_facility_table t).cols a "provider_id",
       colVal (build_facility_table t).cols a "snapshot_year") ≠
      (colVal (build_facility_table t).cols b "provider_id",
       colVal (build_facility_table t).cols b "snapshot_year")) := by
  simp only [build_facility_table, hl]
  exact dedupByKey_pairwise _ _ []

lemma facility_cols_mem (t : Table) (pc2 : String)
    (hl : (buildColMap t.cols).lookup "provider_id" = some pc2)
    (hyr : "snapshot_year" ∈ t.cols) (hlb : "snapshot_label" ∈ t.cols) :
    "provider_id" ∈ (build_facility_table t).cols ∧
    "snapshot_year" ∈ (build_facility_table t).cols ∧
    "snapshot_label" ∈ (build_facility_table t).cols := by
  simp only [build_facility_table, hl]
  refine ⟨List.mem_append_left _ ?_, List.mem_append_right _ ?_,
    List.mem_append_right _ ?_⟩
  · exact List.mem_map_of_mem _ (lookup_some_mem hl)
  · simp [snapColsIn, List.mem_filter, contains_iff_mem, hyr]
  · simp [snapColsIn, List.mem_filter, contains_iff_mem, hlb]

lemma pivot_cols_mem (t : Table) (mc pc sc : String)
    (hm : findMeasureCol t.cols = some mc) (hp : findProviderCol t.cols = some pc)
    (hsc : findScoreCol t.cols = some sc) :
    "provider_id" ∈ (pivot_measures t).cols ∧
    "snapshot_year" ∈ (pivot_measures t).cols ∧
    "snapshot_label" ∈ (pivot_measures t).cols := by
  simp only [pivot_measures, hm, hp, hsc]
  exact ⟨List.mem_append_left _ (by decide), List.mem_append_left _ (by decide),
    List.mem_append_left _ (by decide)⟩

/-- Claim C10: when pivot and facility derivation both succeed (their
required columns are located) and the snapshot columns exist, the left
join on `(provider_id, snapshot_year, snapshot_label)` produces exactly
one row per pivot row: the facility side is deduplicated on
`(provider_id, snapshot_year)`, a sub-key of the join key, so it is
unique on the join key and the join never multiplies rows. -/
theorem c10_left_join_no_row_multiplication (t : Table) (mc pc sc pc2 : String)
    (hm : findMeasureCol t.cols = some mc) (hp : findProviderCol t.cols = some pc)
    (hsc : findScoreCol t.cols = some sc)
    (hl : (buildColMap t.cols).lookup "provider_id" = some pc2)
    (hyr : "snapshot_year" ∈ t.cols) (hlb : "snapshot_label" ∈ t.cols) :
    ∃ m, merge (pivot_measures t) (build_facility_table t) joinKeys = Except.ok m ∧
      m.rows.length = (pivot_measures t).rows.length := by
  obtain ⟨hP1, hP2, hP3⟩ := pivot_cols_mem t mc pc sc hm hp hsc
  obtain ⟨hF1, hF2, hF3⟩ := facility_cols_mem t pc2 hl hyr hlb
  have hPall : joinKeys.all (fun k => (pivot_measures t).cols.contains k) = true := by
    rw [List.all_eq_true]
    intro k hk
    rcases (show k = "provider_id" ∨ k = "snapshot_year" ∨ k = "snapshot_label" by
      simpa [joinKeys] using hk) with rfl | rfl | rfl
    · exact (contains_iff_mem _ _).mpr hP1
    · exact (contains_iff_mem _ _).mpr hP2
    · exact (contains_iff_mem _ _).mpr hP3
  have hFall : joinKeys.all (fun k => (build_facility_table t).cols.contains k) = true := by
    rw [List.all_eq_true]
    intro k hk
    rcases (show k = "provider_id" ∨ k = "snapshot_year" ∨ k = "snapshot_label" by
      simpa [joinKeys] using hk) with rfl | rfl | rfl
    · exact (contains_iff_mem _ _).mpr hF1
    · exact (contains_iff_mem _ _).mpr hF2
    · exact (contains_iff_mem _ _).mpr hF3
  refine merge_rows_length _ _ joinKeys hPall hFall
    (fun r => (colVal (build_facility_table t).cols r "provider_id",
               colVal (build_facility_table t).cols r "snapshot_year"))
    (facility_key_pairwise t pc2 hl) ?_
  intro lr a ha b hb hpa hpb
  have ha1 := eq_of_beq (List.all_eq_true.mp hpa "provider_id" (by simp [joinKeys]))
  have ha2 := eq_of_beq (List.all_eq_true.mp hpa "snapshot_year" (by simp [joinKeys]))
  have hb1 := eq_of_beq (List.all_eq_true.mp hpb "provider_id" (by simp [joinKeys]))
  have hb2 := eq_of_beq (List.all_eq_true.mp hpb "snapshot_year" (by simp [joinKeys]))
  simp only
  rw [ha1, ha2, hb1, hb2]

theorem c10_witness :
    findMeasureCol c10wtab.cols = some "Measure Code" ∧
    findProviderCol c10wtab.cols = some "CMS Certification Number (CCN)" ∧
    findScoreCol c10wtab.cols = some "Score" ∧
    (buildColMap c10wtab.cols).lookup "provider_id" =
      some "CMS Certification Number (CCN)" ∧
    "snapshot_year" ∈ c10wtab.cols ∧ "snapshot_label" ∈ c10wtab.cols ∧
    (∃ m, merge (pivot_measures c10wtab) (build_facility_table c10wtab) joinKeys =
        Except.ok m ∧ m.rows.length = (pivot_measures c10wtab).rows.length) :=
  ⟨by decide, by decide, by decide, by decide, by decide, by decide,
    c10_left_join_no_row_multiplication c10wtab "Measure Code"
      "CMS Certification Number (CCN)" "Score" "CMS Certification Number (CCN)"
      (by decide) (by decide) (by decide) (by decide) (by decide) (by decide)⟩

/-- Claim C7: the `(provider_id, snapshot_year, snapshot_label)` triple
is unique among the rows of the pivot output (one row per distinct group
key) and among the rows of the facility-attributes output (deduplicated
on the `(provider_id, snapshot_year)` sub-key). -/
theorem c7_key_unique_both (t : Table) :
    ((pivot_measures t).rows.Pairwise (fun r₁ r₂ =>
        keyTripleOf (pivot_measures t).cols r₁ ≠ keyTripleOf (pivot_measures t).cols r₂)) ∧
    ((build_facility_table t).rows.Pairwise (fun r₁ r₂ =>
        keyTripleOf (build_facility_table t).cols r₁ ≠
          keyTripleOf (build_facility_table t).cols r₂)) := by
  constructor
  · cases hm : findMeasureCol t.cols with
    | none => simp [pivot_measures, hm, Table.empty]
    | some mc =>
      cases hp : findProviderCol t.cols with
      | none => simp [pivot_measures, hm, hp, Table.empty]
      | some pc =>
        cases hsc : findScoreCol t.cols with
        | none => simp [pivot_measures, hm, hp, hsc, Table.empty]
        | some sc =>
          simp only [pivot_measures, hm, hp, hsc]
          rw [List.pairwise_map]
          have hnd : (pivotKeys t mc pc sc).Nodup :=
            List.Nodup.filter _ (insSort_nodup tripLE _ (List.nodup_dedup _))
          refine List.Pairwise.imp ?_ hnd
      -- distinct keys give distinct key reads on the constructed rows
      -- (the key columns head the header)
          intro k₁ k₂ hne hcon
          apply hne
      -- rewrite both sides with the row-reading lemma
          have e₁ := keyTripleOf_pivot_row
            ((pivotCodes t mc pc sc).map measureLabel) k₁
            ((pivotCodes t mc pc sc).map (fun code => optToVal (pivotCell t mc pc sc k₁ code)))
          have e₂ := keyTripleOf_pivot_row
            ((pivotCodes t mc pc sc).map measureLabel) k₂
            ((pivotCodes t mc pc sc).map (fun code => optToVal (pivotCell t mc pc sc k₂ code)))
          rw [← e₁, ← e₂]
          exact hcon
  · cases hl : (buildColMap t.cols).lookup "provider_id" with
    | none => simp [build_facility_table, hl, Table.empty]
    | some pc2 =>
      simp only [build_facility_table, hl]
      refine List.Pairwise.imp ?_ (dedupByKey_pairwise _ _ [])
      intro a b hne hcon
      apply hne
      rw [keyTripleOf, keyTripleOf] at hcon
      have h1 := congrArg Prod.fst hcon
      have h2 := congrArg (fun p => p.2.1) hcon
      simp at h1 h2
      rw [h1, h2]

lemma colVal_append_left (cols cols2 : List String) (r r2 : List Val) (c : String)
    (hc : c ∈ cols) (hlen : r.length = cols.length) :
    colVal (cols ++ cols2) (r ++ r2) c = colVal cols r c := by
  rw [colVal, colVal, List.indexOf_append_of_mem hc]
  have hlt : cols.indexOf c < r.length := by
    rw [hlen]
    exact List.indexOf_lt_length.mpr hc
  rw [List.getD_eq_getElem?_getD, List.getD_eq_getElem?_getD,
    List.getElem?_append_left hlt]

lemma colVal_not_mem (cols : List String) (r : List Val) (c : String)
    (hc : c ∉ cols) (hlen : r.length = cols.length) :
    colVal cols r c = Val.na := by
  have hle : r.length ≤ cols.indexOf c := by
    rw [List.indexOf_eq_length.mpr hc, hlen]
  rw [colVal, List.getD_eq_getElem?_getD, List.getElem?_eq_none hle]
  rfl

lemma pivot_measures_WF (t : Table) : (pivot_measures t).WF := by
  intro R hR
  cases hm : findMeasureCol t.cols with
  | none => simp [pivot_measures, hm, Table.empty] at hR
  | some mc =>
    cases hp : findProviderCol t.cols with
    | none => simp [pivot_measures, hm, hp, Table.empty] at hR
    | some pc =>
      cases hsc : findScoreCol t.cols with
      | none => simp [pivot_measures, hm, hp, hsc, Table.empty] at hR
      | some sc =>
        simp only [pivot_measures, hm, hp, hsc] at hR ⊢
        rcases List.mem_map.mp hR with ⟨k, hk, rfl⟩
        simp

/-- A successful left join has the left header followed by the non-key
right columns, and every output row extends a left row by exactly the
non-key right cells. -/
lemma merge_ok_structure (l r : Table) (keys : List String) (m : Table)
    (hok : merge l r keys = Except.ok m) :
    m.cols = l.cols ++ r.cols.filter (fun c => !keys.contains c) ∧
    ∀ R ∈ m.rows, ∃ lr ∈ l.rows, ∃ sfx : List Val,
      R = lr ++ sfx ∧
      sfx.length = (r.cols.filter (fun c => !keys.contains c)).length := by
  simp only [merge] at hok
  split at hok
  · exact Except.noConfusion hok
  · injection hok with h2
    subst h2
    refine ⟨rfl, ?_⟩
    intro R hR
    simp only [List.mem_flatMap] at hR
    rcases hR with ⟨lr, hlr, hR⟩
    refine ⟨lr, hlr, ?_⟩
    revert hR
    cases r.rows.filter
        (fun rr => keys.all (fun k => colVal r.cols rr k == colVal l.cols lr k)) with
    | nil =>
      intro hR
      simp only [List.mem_singleton] at hR
      subst hR
      exact ⟨_, rfl, by simp⟩
    | cons a as =>
      intro hR
      simp only [List.mem_map] at hR
      rcases hR with ⟨rr, hrr, rfl⟩
      exact ⟨_, rfl, by simp⟩

lemma merge_ok_WF (l r : Table) (keys : List String) (m : Table)
    (hok : merge l r keys = Except.ok m) (hl : l.WF) : m.WF := by
  obtain ⟨hcols, hrows⟩ := merge_ok_structure l r keys m hok
  intro R hR
  rcases hrows R hR with ⟨lr, hlr, sfx, rfl, hsfx⟩
  rw [hcols]
  simp [hl lr hlr, hsfx]

/-- Every facility-output column is a canonical field name or a snapshot
column. -/
lemma facility_cols_sub (t : Table) (c : String)
    (hc : c ∈ (build_facility_table t).cols) :
    c ∈ facilityMapping.map (fun e => e.1) ++ ["snapshot_year", "snapshot_label"] := by
  cases hl : (buildColMap t.cols).lookup "provider_id" with
  | none => simp [build_facility_table, hl, Table.empty] at hc
  | some pc2 =>
    simp only [build_facility_table, hl] at hc
    rcases List.mem_append.mp hc with h | h
    · rcases List.mem_map.mp h with ⟨e, he, rfl⟩
      rcases List.mem_filterMap.mp he with ⟨tc, htc, hsome⟩
      rcases Option.map_eq_some'.mp hsome with ⟨c', _, rfl⟩
      exact List.mem_append_left _ (List.mem_map_of_mem _ htc)
    · exact List.mem_append_right _ ((List.mem_filter.mp h).1)

/-- Every pivot-output column is a key column or a renamed recognized
measure code. -/
lemma pivot_cols_sub (t : Table) (mc pc sc : String)
    (hm : findMeasureCol t.cols = some mc) (hp : findProviderCol t.cols = some pc)
    (hsc : findScoreCol t.cols = some sc) (c : String)
    (hc : c ∈ (pivot_measures t).cols) :
    c ∈ ["provider_id", "snapshot_year", "snapshot_label"] ∨
      ∃ code ∈ measureKeys, c = measureLabel code := by
  simp only [pivot_measures, hm, hp, hsc] at hc
  rcases List.mem_append.mp hc with h | h
  · exact Or.inl h
  · rcases List.mem_map.mp h with ⟨code, hcode, rfl⟩
    exact Or.inr ⟨code, pivotCodes_mem_measureKeys t mc pc sc code hcode, rfl⟩

/-- Reading a kept measure-code column of a constructed pivot row yields
that key's aggregated cell. -/
lemma colVal_pivot_row (t : Table) (mc pc sc : String) (k : Val × Val × Val)
    (code : String) (hcode : code ∈ pivotCodes t mc pc sc) :
    colVal (["provider_id", "snapshot_year", "snapshot_label"] ++
        (pivotCodes t mc pc sc).map measureLabel)
      ([k.1, k.2.1, k.2.2] ++ (pivotCodes t mc pc sc).map
        (fun c => optToVal (pivotCell t mc pc sc k c)))
      (measureLabel code) = optToVal (pivotCell t mc pc sc k code) := by
  have hmemK : code ∈ measureKeys := pivotCodes_mem_measureKeys t mc pc sc code hcode
  have hnot3 : measureLabel code ∉ ["provider_id", "snapshot_year", "snapshot_label"] :=
    (by decide : ∀ x ∈ measureKeys,
      measureLabel x ∉ ["provider_id", "snapshot_year", "snapshot_label"]) code hmemK
  rw [colVal, List.indexOf_append_of_not_mem hnot3]
  have hlen3 : (["provider_id", "snapshot_year", "snapshot_label"] : List String).length = 3 :=
    rfl
  rw [hlen3]
  have hshift : ([k.1, k.2.1, k.2.2] ++ (pivotCodes t mc pc sc).map
      (fun c => optToVal (pivotCell t mc pc sc k c))).getD
        (3 + List.indexOf (measureLabel code)
          ((pivotCodes t mc pc sc).map measureLabel)) Val.na =
      ((pivotCodes t mc pc sc).map
        (fun c => optToVal (pivotCell t mc pc sc k c))).getD
        (List.indexOf (measureLabel code)
          ((pivotCodes t mc pc sc).map measureLabel)) Val.na := by
    rw [List.getD_eq_getElem?_getD, List.getD_eq_getElem?_getD,
      List.getElem?_append_right (by simp)]
    simp
  rw [hshift]
  have hinj : ∀ a ∈ pivotCodes t mc pc sc, ∀ b ∈ pivotCodes t mc pc sc,
      measureLabel a = measureLabel b → a = b := by
    intro a ha b hb
    exact (by decide : ∀ a ∈ measureKeys, ∀ b ∈ measureKeys,
        measureLabel a = measureLabel b → a = b) a
      (pivotCodes_mem_measureKeys t mc pc sc a ha) b
      (pivotCodes_mem_measureKeys t mc pc sc b hb)
  rw [getD_map_indexOf_map measureLabel _ (pivotCodes t mc pc sc) code hcode hinj]

/-- A code whose cell under a grouped key is non-missing survives the
column `dropna`. -/
lemma mem_pivotCodes_of_isSome (t : Table) (mc pc sc : String)
    (k : Val × Val × Val) (code : String) (hk : k ∈ pivotKeysOf t mc pc)
    (hsome : (pivotCell t mc pc sc k code).isSome = true) :
    code ∈ pivotCodes t mc pc sc := by
  rw [pivotCodes, List.mem_filter]
  constructor
  · have hgne : pivotGroup t mc pc k code ≠ [] := by
      intro hnil
      rw [pivotCell, hnil] at hsome
      simp at hsome
    rcases List.exists_mem_of_ne_nil _ hgne with ⟨r, hr⟩
    rw [pivotGroup, List.mem_filter] at hr
    rcases hr with ⟨hrv, hcond⟩
    have hcond2 : (colVal t.cols r mc == Val.str code) = true := by
      simp only [Bool.and_eq_true] at hcond
      exact hcond.2
    have hcode_eq : colVal t.cols r mc = Val.str code := eq_of_beq hcond2
    rw [pivotCodesAll, mem_insSort, List.mem_dedup]
    refine List.mem_map.mpr ⟨r, hrv, ?_⟩
    rw [hcode_eq]
    rfl
  · rw [List.any_eq_true]
    exact ⟨k, hk, hsome⟩

/-- With `dropna=True`, every emitted pivot row carries at least one
present (numeric) measure value. -/
lemma pivot_row_present_measure (t : Table) (mc pc sc : String)
    (hm : findMeasureCol t.cols = some mc) (hp : findProviderCol t.cols = some pc)
    (hsc : findScoreCol t.cols = some sc)
    (R : List Val) (hR : R ∈ (pivot_measures t).rows) :
    ∃ c ∈ measureColsOf (pivot_measures t).cols, ∃ q : ℚ,
      colVal (pivot_measures t).cols R c = Val.num q := by
  simp only [pivot_measures, hm, hp, hsc] at hR ⊢
  rcases List.mem_map.mp hR with ⟨k, hk, rfl⟩
  rcases List.mem_filter.mp hk with ⟨hkOf, hany⟩
  rcases List.any_eq_true.mp hany with ⟨code, _, hsome⟩
  have hcode : code ∈ pivotCodes t mc pc sc :=
    mem_pivotCodes_of_isSome t mc pc sc k code hkOf hsome
  rcases Option.isSome_iff_exists.mp hsome with ⟨q, hq⟩
  refine ⟨measureLabel code, ?_, q, ?_⟩
  · rw [measureColsOf, List.mem_filter]
    refine ⟨(by decide : ∀ x ∈ measureKeys,
      measureLabel x ∈ MEASURE_MAP.map (fun e => e.2)) code
        (pivotCodes_mem_measureKeys t mc pc sc code hcode), ?_⟩
    exact (contains_iff_mem _ _).mpr
      (List.mem_append_right _ (List.mem_map_of_mem _ hcode))
  · rw [colVal_pivot_row t mc pc sc k code hcode, hq]
    rfl

/-- Claim C5: for every joined output row, when at least one recognized
measure column is present in the merged table the composite
`composite_raw` is a defined number in `[0, 1]`; and a joined row with
no measure values present reads a null composite — vacuously when
measure columns exist, since `pivot_table`'s `dropna=True` leaves every
pivot row (hence every joined row) with at least one present measure
value, and because no `composite_raw` column is created when no measure
column exists. -/
theorem c5_composite_range (t m : Table) (mc pc sc : String)
    (hm : findMeasureCol t.cols = some mc) (hp : findProviderCol t.cols = some pc)
    (hsc : findScoreCol t.cols = some sc)
    (hmerge : merge (pivot_measures t) (build_facility_table t) joinKeys =
      Except.ok m) :
    (measureColsOf m.cols ≠ [] →
      ∀ R ∈ (compositeStep m).rows, ∃ q : ℚ,
        colVal (compositeStep m).cols R "composite_raw" = Val.num q ∧
        0 ≤ q ∧ q ≤ 1) ∧
    (∀ R ∈ (compositeStep m).rows,
      (∀ c ∈ measureColsOf m.cols,
        asNum (colVal (compositeStep m).cols R c) = none) →
      colVal (compositeStep m).cols R "composite_raw" = Val.na) := by
  have hWF : m.WF := merge_ok_WF _ _ _ _ hmerge (pivot_measures_WF t)
  obtain ⟨hcols, hrows⟩ := merge_ok_structure _ _ _ _ hmerge
  have hcrP : "composite_raw" ∉ (pivot_measures t).cols := by
    intro hc
    rcases pivot_cols_sub t mc pc sc hm hp hsc _ hc with h | ⟨code, hcodeK, he⟩
    · simp at h
    · exact (by decide : ∀ x ∈ measureKeys, measureLabel x ≠ "composite_raw")
        code hcodeK he.symm
  have hcrF : "composite_raw" ∉ (build_facility_table t).cols := by
    intro hc
    have := facility_cols_sub t _ hc
    simp [facilityMapping] at this
  have hcrM : "composite_raw" ∉ m.cols := by
    rw [hcols]
    intro hc
    rcases List.mem_append.mp hc with h | h
    · exact hcrP h
    · exact hcrF (List.mem_filter.mp h).1
  constructor
  · intro hne R hR
    rw [compositeStep, if_neg (by simp [List.isEmpty_iff, hne])] at hR ⊢
    rcases List.mem_map.mp hR with ⟨r, hr, rfl⟩
    exact ⟨compositeOf m r,
      colVal_setCell_self m.cols r "composite_raw" _ (hWF r hr),
      le_of_lt (compositeOf_bounds m r hr hne).1, (compositeOf_bounds m r hr hne).2⟩
  · intro R hR hnone
    by_cases hmc : measureColsOf m.cols = []
    · rw [compositeStep, if_pos (by simp [List.isEmpty_iff, hmc])] at hR ⊢
      exact colVal_not_mem m.cols R "composite_raw" hcrM (hWF R hR)
    · exfalso
      rw [compositeStep, if_neg (by simp [List.isEmpty_iff, hmc])] at hR hnone
      rcases List.mem_map.mp hR with ⟨r, hr, rfl⟩
      rcases hrows r hr with ⟨lr, hlr, sfx, rfl, hsfx⟩
      rcases pivot_row_present_measure t mc pc sc hm hp hsc lr hlr with
        ⟨c, hcm, q, hq⟩
      have hcP : c ∈ (pivot_measures t).cols := by
        rw [measureColsOf, List.mem_filter] at hcm
        exact (contains_iff_mem _ _).mp hcm.2
      have hcMem : c ∈ m.cols := by
        rw [hcols]
        exact List.mem_append_left _ hcP
      have hcM : c ∈ measureColsOf m.cols := by
        rw [measureColsOf, List.mem_filter] at hcm ⊢
        exact ⟨hcm.1, (contains_iff_mem _ _).mpr hcMem⟩
      have hcv : colVal m.cols (lr ++ sfx) c = Val.num q := by
        rw [hcols, colVal_append_left _ _ _ _ _ hcP (pivot_measures_WF t lr hlr)]
        exact hq
      have hne2 : c ≠ "composite_raw" := fun he => hcrM (he ▸ hcMem)
      have hread : asNum (colVal (setColName m.cols "composite_raw")
          (setCell m.cols (lr ++ sfx) "composite_raw"
            (.num (compositeOf m (lr ++ sfx)))) c) = none := hnone c hcM
      rw [colVal_setCell_ne m.cols (lr ++ sfx) "composite_raw" _ c
        (hWF _ hr) hne2, hcv] at hread
      simp [asNum] at hread

theorem c5_witness :
    findMeasureCol c5wtab.cols = some "Measure Code" ∧
    findProviderCol c5wtab.cols = some "CMS Certification Number (CCN)" ∧
    findScoreCol c5wtab.cols = some "Score" ∧
    merge (pivot_measures c5wtab) (build_facility_table c5wtab) joinKeys =
      Except.ok c5wmerged ∧
    ((measureColsOf c5wmerged.cols ≠ [] →
      ∀ R ∈ (compositeStep c5wmerged).rows, ∃ q : ℚ,
        colVal (compositeStep c5wmerged).cols R "composite_raw" = Val.num q ∧
        0 ≤ q ∧ q ≤ 1) ∧
    (∀ R ∈ (compositeStep c5wmerged).rows,
      (∀ c ∈ measureColsOf c5wmerged.cols,
        asNum (colVal (compositeStep c5wmerged).cols R c) = none) →
      colVal (compositeStep c5wmerged).cols R "composite_raw" = Val.na)) :=
  ⟨by decide, by decide, by decide, by decide,
    c5_composite_range c5wtab c5wmerged "Measure Code"
      "CMS Certification Number (CCN)" "Score"
      (by decide) (by decide) (by decide) (by decide)⟩

example :
    (filter_to_counties
      ⟨["County Name", "Provider State"],
       [[.str "Sullivan County", .str "TN"], [.str "Knox", .str "TN"]]⟩
      [(.str "SULLIVAN", .str "TN")]).rows =
    [[.str "Sullivan County", .str "TN", .str "SULLIVAN", .str "TN",
      .pair "SULLIVAN" "TN"]] := by decide

end SNF
